import Mathlib

/-!
Shallow embedding of the nero P10 server-to-server link daemon
(files src/utils.rs, src/core_data.rs, src/channel.rs, src/channel_member.rs,
src/user.rs, src/server.rs, src/net.rs and src/p10.rs) together with proofs
about the embedded code.

Strings on the wire are raw byte sequences; we model them as `List Nat`
(each element an octet).  Rust machine integers (`u64`, `usize`) are modelled
as `Nat`; all arithmetic that the embedded code performs on them stays far
below `2^64`, and the one place where a range matters (parsing a `u64`) checks
the bound explicitly.  A Rust `panic!` (explicit, from a failed `unwrap`, a
failed `assert!`, or an out-of-bounds index) is modelled by `Option.none`
bubbling out of the function that panics.
-/

namespace Nero

/-- Byte strings: P10 is 8-bit clean, every protocol-visible string is a raw
byte sequence. -/
abbrev ByteStr := List Nat

/-- Helper turning a Lean string literal into the byte sequence the wire
carries (all literals used in this development are ASCII). -/
def bs (s : String) : ByteStr :=
  s.data.map (fun c => c.toNat)

/-- From src/utils.rs `u8_slice_to_lower`: ASCII-lowercase every byte. -/
def u8_slice_to_lower (input : ByteStr) : ByteStr :=
  input.map (fun b => if 65 ≤ b ∧ b ≤ 90 then b + 32 else b)

/-- Loop body of src/utils.rs `split_string`.  The Rust loop pushes the
accumulated word on every space byte (so doubled spaces yield empty words),
and pushes the final word when the last byte of the input is not a space. -/
def splitStringGo (tmp : ByteStr) : ByteStr → List ByteStr
  | [] => []
  | c :: rest =>
    if c = 32 then tmp :: splitStringGo [] rest
    else if rest.isEmpty then [tmp ++ [c]]
    else splitStringGo (tmp ++ [c]) rest

/-- From src/utils.rs `split_string`. -/
def split_string (input : ByteStr) : List ByteStr :=
  splitStringGo [] input

/-- From src/utils.rs `unsplit_string`: join `max` arguments starting at
`startidx`, each followed by a single space; the empty result when fewer
than `max` arguments are available. -/
def unsplit_string (argv : List ByteStr) (argc startidx max : Nat) : ByteStr :=
  let vec := (argv.take argc).drop startidx
  if max > vec.length then []
  else ((vec.take max).map (fun w => w ++ [32])).flatten

/-- From src/utils.rs `ceiling_division`.  The Rust function asserts
`left > 0`; every call site in the embedded code passes a positive `left`
(the message length plus a nonempty prefix). -/
def ceiling_division (left right : Nat) : Nat :=
  1 + (left - 1) / right

/-- Decimal digits of a natural number, most significant first, as ASCII
bytes (the bytes Rust's `format!("{}")` produces for an unsigned value). -/
def natDecimalBytes (n : Nat) : ByteStr :=
  (Nat.toDigits 10 n).map (fun c => c.toNat)

/-- Value of a list of ASCII digit bytes, most significant first
(accumulator form). -/
def digitsVal (acc : Nat) : ByteStr → Nat
  | [] => acc
  | d :: rest => digitsVal (acc * 10 + (d - 48)) rest

/-- `true` iff the byte is an ASCII digit. -/
def isDigitB (b : Nat) : Bool :=
  decide (48 ≤ b ∧ b ≤ 57)

/-- Rust `str::parse::<u64>()` on a byte string: an optional leading `+`,
then at least one ASCII digit, value below `2^64`; everything else is a
parse error (`none`).  A byte sequence that is not valid UTF-8 also fails
`str::from_utf8` in the Rust code; both failure modes collapse to `none`
here, which matches every use site (each either falls back to a default or
panics on either failure). -/
def rustParseU64 (s : ByteStr) : Option Nat :=
  let digits := if s.headD 0 = 43 then s.drop 1 else s
  if digits.isEmpty then none
  else if digits.all isDigitB then
    let v := digitsVal 0 digits
    if v < 2 ^ 64 then some v else none
  else none

/-- Rust `str::parse::<i8>()` on a byte string: optional sign, digits,
value in `[-128, 127]`. -/
def rustParseI8 (s : ByteStr) : Option Int :=
  let negative := s.headD 0 = 45
  let digits := if s.headD 0 = 43 ∨ s.headD 0 = 45 then s.drop 1 else s
  if digits.isEmpty then none
  else if digits.all isDigitB then
    let v : Int := Int.ofNat (digitsVal 0 digits)
    let v := if negative then -v else v
    if -128 ≤ v ∧ v ≤ 127 then some v else none
  else none

/-- Loop of src/p10.rs `split_line` (the wire tokenizer).  The loop runs
while `argc < argv_size`; here the remaining token budget
`argv_size - argc` is the structural recursion argument.  Skips runs of
spaces; a token starting with `:` after at least one emitted token
(`argc > 0`) swallows the rest of the line (dropped entirely when nothing
follows the colon); otherwise the token runs to the next space. -/
def splitLineGo (argc : Nat) : Nat → ByteStr → List ByteStr
  | 0, _ => []
  | fuel + 1, rest =>
    let r := rest.dropWhile (fun b => b = 32)
    match r with
    | [] => []
    | c :: tail =>
      if c = 58 ∧ argc > 0 then
        if tail.isEmpty then [] else [tail]
      else
        let tok := r.takeWhile (fun b => ¬ b = 32)
        tok :: splitLineGo (argc + 1) fuel (r.dropWhile (fun b => ¬ b = 32))

/-- From src/p10.rs `split_line` with `irc_colon = true`; the daemon always
calls it with an argv cap of 200.  Returns the token list; the Rust pair
`(argc, argv)` always satisfies `argc = argv.len()`. -/
def split_line (line : ByteStr) : List ByteStr :=
  splitLineGo 0 200 line

/-- Value of one base-64 alphabet byte (RFC 4648 alphabet, which the Rust
`base64` crate uses after the code translates `[` to `+` and `]` to `/`). -/
def b64val (b : Nat) : Option Nat :=
  if 65 ≤ b ∧ b ≤ 90 then some (b - 65)
  else if 97 ≤ b ∧ b ≤ 122 then some (b - 97 + 26)
  else if 48 ≤ b ∧ b ≤ 57 then some (b - 48 + 52)
  else if b = 43 then some 62
  else if b = 47 then some 63
  else none

/-- Standard base-64 decoding of a list of 6-bit values: full groups of four
values give three bytes; a final group of three gives two bytes, of two gives
one byte; a dangling single value is a decode error, matching the `base64`
crate's behaviour on unpadded input. -/
def b64groups : List Nat → Option ByteStr
  | [] => some []
  | [_] => none
  | [a, b] => some [(a <<< 2) ||| (b >>> 4)]
  | [a, b, c] => some [(a <<< 2) ||| (b >>> 4), ((b &&& 15) <<< 4) ||| (c >>> 2)]
  | a :: b :: c :: d :: rest => do
    let tail ← b64groups rest
    pure ([(a <<< 2) ||| (b >>> 4), ((b &&& 15) <<< 4) ||| (c >>> 2),
           ((c &&& 3) <<< 6) ||| d] ++ tail)

/-- `base64::decode` on a byte buffer: every byte must be in the alphabet
(the caller never passes `=` padding) and the length must not be 1 mod 4. -/
def base64decode (buf : ByteStr) : Option ByteStr := do
  let vals ← buf.mapM b64val
  b64groups vals

/-- From src/p10.rs `base64_to_vecu8`: decode a P10 IP token.  `_` gives the
empty IP; otherwise two `A` bytes are appended, `[`/`]` are translated to
`+`/`/`, the result is base-64 decoded (a decode error is logged and treated
as the empty buffer), and four dotted-quad components are assembled from
nibbles of the first five decoded bytes.  Indexing `decoded[4]` panics
(`Option.none` here) when the decode yields one to four bytes. -/
def base64_to_vecu8 (input : ByteStr) : Option ByteStr :=
  if input = [95] then some []
  else
    let buffer := (input ++ [65, 65]).map
      (fun b => if b = 91 then 43 else if b = 93 then 47 else b)
    let decoded := (base64decode buffer).getD []
    if decoded.isEmpty then some []
    else
      match decoded.get? 0, decoded.get? 1, decoded.get? 2,
            decoded.get? 3, decoded.get? 4 with
      | some d0, some d1, some d2, some d3, some d4 =>
        let ip := [((d0 &&& 15) <<< 4) ||| ((d1 >>> 4) &&& 15),
                   ((d1 &&& 15) <<< 4) ||| ((d2 >>> 4) &&& 15),
                   ((d2 &&& 15) <<< 4) ||| ((d3 >>> 4) &&& 15),
                   ((d3 &&& 15) <<< 4) ||| ((d4 >>> 4) &&& 15)]
        some (natDecimalBytes (ip.get! 0) ++ [46] ++ natDecimalBytes (ip.get! 1) ++
              [46] ++ natDecimalBytes (ip.get! 2) ++ [46] ++ natDecimalBytes (ip.get! 3))
      | _, _, _, _, _ => none

/-! ## Data model

src/user.rs, src/server.rs, src/channel.rs, src/channel_member.rs,
src/config.rs, src/net.rs (`ConnectionState`) and src/core_data.rs
(`NeroData`), instantiated at the `P10` protocol of src/p10.rs (so each
entity carries its `P10*Ext` fields inline).

Rust shares `User` and `Server` nodes between several lists through
`Rc<RefCell<_>>`.  We model that heap explicitly: `userHeap` is an
append-only arena and every list that holds an `Rc<RefCell<User>>` holds the
arena index (`uid`) instead; mutating through one handle is then visible
through all.  Servers are only ever appended to `NeroData.servers`, so that
list doubles as their arena and a server pointer is its index (`sid`); the
`me` server is pushed first by `NeroData::new`, hence `sid = 0`.  Channels
are referenced only from `NeroData.channels` and members only from their
channel, so both live inline. -/

/-- src/user.rs `BaseUser`. -/
structure BaseUser where
  nick : ByteStr
  ident : ByteStr
  host : ByteStr
  ip : ByteStr
  gecos : ByteStr
  modes : Nat
  account : ByteStr
  awayMessage : ByteStr
  deriving Repr, DecidableEq

/-- src/user.rs `User` with the `P10UserExt` extension of src/p10.rs;
`uplinkSid` is the owning server's index. -/
structure UserObj where
  base : BaseUser
  uplinkSid : Nat
  numeric : ByteStr
  fakeident : ByteStr
  fakehost : ByteStr
  timestamp : Nat
  deriving Repr, DecidableEq

/-- src/server.rs `Server` (base part) with the `P10ServExt` extension;
`userIds` holds arena indices of the users the server owns.  The g-line
list is never populated by the embedded handlers and is omitted. -/
structure ServerObj where
  hostname : ByteStr
  description : ByteStr
  hops : Int
  boot : Nat
  linkTime : Nat
  uplinkSid : Option Nat
  userIds : List Nat
  numeric : ByteStr
  selfBurst : Bool
  numericAccum : Nat
  deriving Repr, DecidableEq

/-- src/channel_member.rs `ChannelMember` with `P10MemberExt`; `uid` is the
member's user arena index. -/
structure Member where
  modes : Nat
  idle : Nat
  oplevel : Nat
  uid : Nat
  deriving Repr, DecidableEq

/-- src/channel.rs `Channel` with the `P10ChannelExt` extension. -/
structure ChannelObj where
  name : ByteStr
  topic : ByteStr
  topicNick : ByteStr
  topicTime : Nat
  created : Nat
  modes : Nat
  limit : Nat
  key : Option ByteStr
  bans : List ByteStr
  members : List Member
  delayedJoin : Bool
  upass : Option ByteStr
  apass : Option ByteStr
  deriving Repr, DecidableEq

/-- src/net.rs `ConnectionState`. -/
inductive ConnectionState where
  | Quitting
  | Connecting
  | Bursting
  | Connected
  deriving Repr, DecidableEq

/-- The `[uplink]` section of src/config.rs that the P10 engine reads.  The
Rust `numeric` field is `Option<String>` but the engine unwraps it in
`setup`, `start_handshake` and `p10_get_numeric`; the spec marks it
required, so it is modelled as present. -/
structure Config where
  hostname : ByteStr
  description : ByteStr
  sendPass : ByteStr
  recvPass : ByteStr
  numeric : ByteStr
  deriving Repr, DecidableEq

/-- src/core_data.rs `NeroData`, instantiated at `P10`.  Plugins and
registered hook events are omitted: no wire command ever adds either, so in
every state reachable by `process` from startup the hook list is empty and
`fire_hook` only iterates an empty list (see `fire_hook` in
src/core_data.rs). -/
structure NeroState where
  connState : ConnectionState
  now : Nat
  uplink : Option Nat
  channels : List ChannelObj
  unbursted : List ByteStr
  servers : List ServerObj
  users : List Nat
  userHeap : List UserObj
  writeBuffer : List ByteStr
  config : Config
  deriving Repr, DecidableEq

instance : Inhabited BaseUser :=
  ⟨⟨[], [], [], [], [], 0, [], []⟩⟩

instance : Inhabited UserObj :=
  ⟨⟨default, 0, [], [], [], 0⟩⟩

instance : Inhabited ChannelObj :=
  ⟨⟨[], [], [], 0, 0, 0, 0, none, [], [], false, none, none⟩⟩

instance : Inhabited ServerObj :=
  ⟨⟨[], [], 0, 0, 0, none, [], [], true, 0⟩⟩

/-- `Server::new` of src/server.rs combined with `P10ServExt::new` of
src/p10.rs (`self_burst` starts `true`). -/
def serverNew (hostname description : ByteStr) : ServerObj :=
  { hostname := hostname, description := description, hops := 0, boot := 0,
    linkTime := 0, uplinkSid := none, userIds := [], numeric := [],
    selfBurst := true, numericAccum := 0 }

/-- `User::new` of src/user.rs combined with `P10UserExt::new`. -/
def userNew (nick ident hostname : ByteStr) (uplinkSid : Nat) : UserObj :=
  { base := { nick := nick, ident := ident, host := hostname, ip := [],
              gecos := [], modes := 0, account := [], awayMessage := [] },
    uplinkSid := uplinkSid, numeric := [], fakeident := [], fakehost := [],
    timestamp := 0 }

/-- `Channel::new` of src/channel.rs combined with `P10ChannelExt::new`. -/
def channelNew (name : ByteStr) (created : Nat) : ChannelObj :=
  { name := name, topic := [], topicNick := [], topicTime := 0,
    created := created, modes := 0, limit := 0, key := none, bans := [],
    members := [], delayedJoin := false, upass := none, apass := none }

/-- `NeroData::new` of src/core_data.rs followed by `NeroData::setup`
(which runs `P10::setup`, copying the configured numeric onto the `me`
server): the daemon's state at startup.  `me` is pushed into `servers`
first, so it is the server with index 0. -/
def initialState (cfg : Config) : NeroState :=
  { connState := ConnectionState.Connecting, now := 0, uplink := none,
    channels := [], unbursted := [],
    servers := [{ serverNew cfg.hostname cfg.description with numeric := cfg.numeric }],
    users := [], userHeap := [], writeBuffer := [], config := cfg }

/-- Dereference a user arena index.  In Rust the handle is an `Rc` and can
never dangle; the default is only to make the function total. -/
def heapUser (st : NeroState) (uid : Nat) : UserObj :=
  st.userHeap.getD uid default

/-- Dereference a server index (same remark as `heapUser`). -/
def heapServer (st : NeroState) (sid : Nat) : ServerObj :=
  st.servers.getD sid default

/-- Read a channel by index (same remark as `heapUser`). -/
def chanAt (st : NeroState) (i : Nat) : ChannelObj :=
  st.channels.getD i default

/-- Mutation through a user handle: update the arena slot. -/
def updUserAt (st : NeroState) (uid : Nat) (f : UserObj → UserObj) : NeroState :=
  { st with userHeap := st.userHeap.set uid (f (heapUser st uid)) }

/-- Mutation through a server handle. -/
def updServerAt (st : NeroState) (sid : Nat) (f : ServerObj → ServerObj) : NeroState :=
  { st with servers := st.servers.set sid (f (heapServer st sid)) }

/-- Mutation through a channel handle. -/
def updChannelAt (st : NeroState) (i : Nat) (f : ChannelObj → ChannelObj) : NeroState :=
  { st with channels := st.channels.set i (f (chanAt st i)) }

/-- `NeroData::add_to_buffer` of src/core_data.rs. -/
def addToBuffer (st : NeroState) (line : ByteStr) : NeroState :=
  { st with writeBuffer := st.writeBuffer ++ [line] }

/-! ## Mode engine (src/p10.rs)

The `bitflags!` constants `P10UserModes`, `P10ChannelModes`, `P10MemberModes`
and the functions `p10_set_user_mode_helper`, `p10_set_user_modes`,
`p10_set_channel_mode_helper`, `p10_add_channel_mode`,
`p10_set_channel_modes`, `p10_set_channel_bans`, `p10_channel_has_mode`. -/

def UMODE_OPER : Nat := 1 <<< 0
def UMODE_INVISIBLE : Nat := 1 <<< 1
def UMODE_WALLOP : Nat := 1 <<< 2
def UMODE_DEAF : Nat := 1 <<< 3
def UMODE_SERVICE : Nat := 1 <<< 4
def UMODE_GLOBAL : Nat := 1 <<< 5
def UMODE_NOCHAN : Nat := 1 <<< 6
def UMODE_NOIDLE : Nat := 1 <<< 7
def UMODE_HIDDEN_HOST : Nat := 1 <<< 8
def UMODE_STAMPED : Nat := 1 <<< 9

def CMODE_PRIVATE : Nat := 1 <<< 0
def CMODE_SECRET : Nat := 1 <<< 1
def CMODE_MODERATED : Nat := 1 <<< 2
def CMODE_TOPICLIMIT : Nat := 1 <<< 3
def CMODE_INVITEONLY : Nat := 1 <<< 4
def CMODE_NOPRIVMSGS : Nat := 1 <<< 5
def CMODE_KEY : Nat := 1 <<< 6
def CMODE_BAN : Nat := 1 <<< 7
def CMODE_LIMIT : Nat := 1 <<< 8
def CMODE_DELAYJOINS : Nat := 1 <<< 9
def CMODE_REGONLY : Nat := 1 <<< 10
def CMODE_NOCOLORS : Nat := 1 <<< 11
def CMODE_NOCTCPS : Nat := 1 <<< 12
def CMODE_REGISTERED : Nat := 1 <<< 13
def CMODE_APASS : Nat := 1 <<< 14
def CMODE_UPASS : Nat := 1 <<< 15

def MMODE_CHANOP : Nat := 1 <<< 0
def MMODE_VOICE : Nat := 1 <<< 1
def MMODE_HIDDEN : Nat := 1 <<< 2

/-- src/p10.rs `p10_set_user_mode_helper`.  Note the remove branch is
`modes &= flag` exactly as written in the source (it keeps only `flag`
rather than clearing it). -/
def p10_set_user_mode_helper (u : UserObj) (adding : Bool) (flag : Nat) : UserObj :=
  if adding then { u with base := { u.base with modes := u.base.modes ||| flag } }
  else { u with base := { u.base with modes := u.base.modes &&& flag } }

/-- The side-word scan shared by mode parsing: bytes of `s` starting at `w`
while `p` holds. -/
def takeFromWhile (s : ByteStr) (w : Nat) (p : Nat → Bool) : ByteStr :=
  (s.drop w).takeWhile p

/-- Position after skipping, from `w`, the bytes of `s` on which `p` holds. -/
def skipFromWhile (s : ByteStr) (w : Nat) (p : Nat → Bool) : Nat :=
  w + ((s.drop w).takeWhile p).length

/-- The inner `for index in wordptr..modes.len()` loop of the `r` arm of
`p10_set_user_modes`: counts one byte per digit run plus one for the byte
(colon or other) that stops the loop; an exhausted slice adds nothing
further. -/
def rModeAccum : ByteStr → Nat
  | [] => 0
  | b :: rest => if isDigitB b then 1 + rModeAccum rest else 1

/-- The `for character in mask` loop of the `h` arm: the first `@` switches
accumulation from the front (fake ident) to the back (fake host) and is
dropped; every other byte goes to the current side. -/
def maskSplitGo (gotAt : Bool) (front back : ByteStr) : ByteStr → ByteStr × ByteStr
  | [] => (front, back)
  | c :: rest =>
    if c = 64 ∧ ¬ gotAt then maskSplitGo true front back rest
    else if gotAt then maskSplitGo gotAt front (back ++ [c]) rest
    else maskSplitGo gotAt (front ++ [c]) back rest

/-- Accumulator of the `p10_set_user_modes` character loop: the user being
mutated, the current add/remove polarity and the trailing-word pointer. -/
structure UModeAcc where
  user : UserObj
  adding : Bool
  w : Nat

/-- One simple mode letter: apply the helper and continue. -/
def uModeSimple (acc : UModeAcc) (flag : Nat) : UModeAcc :=
  { acc with user := p10_set_user_mode_helper acc.user acc.adding flag }

/-- The character loop of src/p10.rs `p10_set_user_modes` over the mode
word.  `modes` is the whole argument (the trailing words are read through
the `w` pointer); the loop breaks at the first space.  `none` models the
panic of the unguarded `modes[wordptr]` read in the `r` arm. -/
def setUserModesGo (modes : ByteStr) : List Nat → UModeAcc → Option UModeAcc
  | [], acc => some acc
  | c :: rest, acc =>
    if c = 32 then some acc
    else if c = 43 then setUserModesGo modes rest { acc with adding := true }
    else if c = 45 then setUserModesGo modes rest { acc with adding := false }
    else if c = 111 then setUserModesGo modes rest (uModeSimple acc UMODE_OPER)
    else if c = 105 then setUserModesGo modes rest (uModeSimple acc UMODE_INVISIBLE)
    else if c = 119 then setUserModesGo modes rest (uModeSimple acc UMODE_WALLOP)
    else if c = 100 then setUserModesGo modes rest (uModeSimple acc UMODE_DEAF)
    else if c = 107 then setUserModesGo modes rest (uModeSimple acc UMODE_SERVICE)
    else if c = 103 then setUserModesGo modes rest (uModeSimple acc UMODE_GLOBAL)
    else if c = 110 then setUserModesGo modes rest (uModeSimple acc UMODE_NOCHAN)
    else if c = 73 then setUserModesGo modes rest (uModeSimple acc UMODE_NOIDLE)
    else if c = 120 then setUserModesGo modes rest (uModeSimple acc UMODE_HIDDEN_HOST)
    else if c = 114 then
      if acc.w > 0 then
        let tag := takeFromWhile modes acc.w (fun b => ¬ b = 32 ∧ ¬ b = 58)
        let w1 := acc.w + tag.length
        match modes.get? w1 with
        | none => none
        | some b =>
          let w2 := if b = 58 then w1 + rModeAccum (modes.drop w1) else w1
          let w3 := skipFromWhile modes w2 (fun b => b = 32)
          let u1 := p10_set_user_mode_helper acc.user acc.adding UMODE_STAMPED
          let u2 := { u1 with base := { u1.base with account := tag } }
          setUserModesGo modes rest { user := u2, adding := acc.adding, w := w3 }
      else setUserModesGo modes rest acc
    else if c = 104 then
      if acc.w > 0 then
        let mask := takeFromWhile modes acc.w (fun b => ¬ b = 32)
        let w1 := acc.w + mask.length
        let w2 := skipFromWhile modes w1 (fun b => b = 32)
        let fb := maskSplitGo false [] [] mask
        let u1 := if fb.2.length > 0 then
            { acc.user with fakeident := fb.1, fakehost := fb.2 }
          else
            { acc.user with fakehost := fb.1 }
        setUserModesGo modes rest { user := u1, adding := acc.adding, w := w2 }
      else setUserModesGo modes rest acc
    else setUserModesGo modes rest acc

/-- src/p10.rs `p10_set_user_modes`: initialise the trailing-word pointer
past the first word and the following spaces, then run the character loop.
`none` is the panic described at `setUserModesGo`. -/
def p10_set_user_modes (user : UserObj) (modes : ByteStr) : Option UserObj :=
  let w0 := (modes.takeWhile (fun b => ¬ b = 32)).length
  let w1 := skipFromWhile modes w0 (fun b => b = 32)
  (setUserModesGo modes modes { user := user, adding := true, w := w1 }).map
    (fun acc => acc.user)

/-- src/p10.rs `p10_channel_has_mode`. -/
def p10_channel_has_mode (ch : ChannelObj) (flag : Nat) : Bool :=
  decide (ch.modes &&& flag > 0)

/-- src/p10.rs `p10_set_channel_mode_helper`; the remove branch is
`modes &= flag` exactly as in the source. -/
def p10_set_channel_mode_helper (ch : ChannelObj) (adding : Bool) (flag : Nat) : ChannelObj :=
  if adding then { ch with modes := ch.modes ||| flag }
  else { ch with modes := ch.modes &&& flag }

/-- src/p10.rs `p10_add_channel_mode`: dispatch one channel mode letter
(`p s m t i n k b l D r c C z A U` by byte value); unknown letters are
ignored. -/
def p10_add_channel_mode (ch : ChannelObj) (adding : Bool) (mode : Nat) : ChannelObj :=
  match mode with
  | 112 => p10_set_channel_mode_helper ch adding CMODE_PRIVATE
  | 115 => p10_set_channel_mode_helper ch adding CMODE_SECRET
  | 109 => p10_set_channel_mode_helper ch adding CMODE_MODERATED
  | 116 => p10_set_channel_mode_helper ch adding CMODE_TOPICLIMIT
  | 105 => p10_set_channel_mode_helper ch adding CMODE_INVITEONLY
  | 110 => p10_set_channel_mode_helper ch adding CMODE_NOPRIVMSGS
  | 107 => p10_set_channel_mode_helper ch adding CMODE_KEY
  | 98 => p10_set_channel_mode_helper ch adding CMODE_BAN
  | 108 => p10_set_channel_mode_helper ch adding CMODE_LIMIT
  | 68 => p10_set_channel_mode_helper ch adding CMODE_DELAYJOINS
  | 114 => p10_set_channel_mode_helper ch adding CMODE_REGONLY
  | 99 => p10_set_channel_mode_helper ch adding CMODE_NOCOLORS
  | 67 => p10_set_channel_mode_helper ch adding CMODE_NOCTCPS
  | 122 => p10_set_channel_mode_helper ch adding CMODE_REGISTERED
  | 65 => p10_set_channel_mode_helper ch adding CMODE_APASS
  | 85 => p10_set_channel_mode_helper ch adding CMODE_UPASS
  | _ => ch

/-- The `can_set_setmodes` closure of `p10_set_channel_modes`: an argument
slot is consumed when the channel has the flag and it was not consumed yet. -/
def canSetSetmodes (ch : ChannelObj) (found flag : Nat) : Bool :=
  p10_channel_has_mode ch flag && decide (found &&& flag = 0)

/-- The argument loop `for ii in 1..split_modes.len()` of
`p10_set_channel_modes`, assigning each positional token to the first
unconsumed slot in the fixed order limit, key, upass, apass.  The limit is
`str::from_utf8(..).unwrap().parse().unwrap()` in the source: a malformed
value panics (`none`). -/
def setChanModesArgs : List ByteStr → ChannelObj → Nat → Option (ChannelObj × Nat)
  | [], ch, found => some (ch, found)
  | tok :: rest, ch, found =>
    if canSetSetmodes ch found CMODE_LIMIT then
      match rustParseU64 tok with
      | none => none
      | some v => setChanModesArgs rest { ch with limit := v } (found ||| CMODE_LIMIT)
    else if canSetSetmodes ch found CMODE_KEY then
      setChanModesArgs rest { ch with key := some tok } (found ||| CMODE_KEY)
    else if canSetSetmodes ch found CMODE_UPASS then
      setChanModesArgs rest { ch with upass := some tok } (found ||| CMODE_UPASS)
    else if canSetSetmodes ch found CMODE_APASS then
      setChanModesArgs rest { ch with apass := some tok } (found ||| CMODE_APASS)
    else setChanModesArgs rest ch found

/-- src/p10.rs `p10_set_channel_modes`: split the mode string, apply each
letter of the first word (skipping its first byte, the `+`), then consume
the positional arguments.  `none` models the `unwrap` panic on a malformed
limit value. -/
def p10_set_channel_modes (ch : ChannelObj) (mode_list : ByteStr) : Option ChannelObj :=
  let split_modes := split_string mode_list
  if split_modes.length > 0 then
    let ch1 := ((split_modes.headD []).drop 1).foldl
      (fun c letter => p10_add_channel_mode c true letter) ch
    (setChanModesArgs (split_modes.drop 1) ch1 0).map (fun x => x.1)
  else some ch

/-- src/p10.rs `p10_ban_channel_user` in the adding direction (the only
direction the embedded handlers use). -/
def p10_ban_channel_user_add (ch : ChannelObj) (ban : ByteStr) : ChannelObj :=
  { ch with bans := ch.bans ++ [ban] }

/-- src/p10.rs `p10_set_channel_bans`: push every space-separated entry of
the ban token. -/
def p10_set_channel_bans (ch : ChannelObj) (ban_list : ByteStr) : ChannelObj :=
  (split_string ban_list).foldl p10_ban_channel_user_add ch

/-! ## Store lookups (src/p10.rs and src/core_data.rs) -/

/-- Index of the first element satisfying `p` (the linear scans the store
lookups perform). -/
def findIdxScan (p : α → Bool) : List α → Option Nat
  | [] => none
  | a :: rest => if p a then some 0 else (findIdxScan p rest).map (fun i => i + 1)

/-- src/p10.rs `find_channel`: ASCII-lowercase the query and return the
first channel whose stored name equals it byte-for-byte (the stored name is
not folded).  The result is the channel's index (the `Rc` handle). -/
def find_channel (st : NeroState) (name : ByteStr) : Option Nat :=
  findIdxScan (fun ch => decide (ch.name = u8_slice_to_lower name)) st.channels

/-- src/p10.rs `find_server_numeric`: first server whose 2-byte numeric is
byte-equal to the query; the result is the server's index. -/
def find_server_numeric (st : NeroState) (numeric : ByteStr) : Option Nat :=
  findIdxScan (fun sv => decide (sv.numeric = numeric)) st.servers

/-- src/p10.rs `find_server_from_user`: truncate the user numnick to its
2-byte server prefix (the pop loop) and look the server up.  The `assert!`
that the truncated numnick has length 2 holds at both call sites (the
numnick length was checked to be 3 to 5). -/
def find_server_from_user (st : NeroState) (numeric : ByteStr) : Option Nat :=
  findIdxScan (fun sv => decide (sv.numeric = numeric.take 2)) st.servers

/-- src/p10.rs `find_user_numeric`: first user (in global-list order) whose
numnick is byte-equal to the query; the result is the user's arena index. -/
def find_user_numeric (st : NeroState) (numeric : ByteStr) : Option Nat :=
  st.users.find? (fun uid => decide ((heapUser st uid).numeric = numeric))

/-- src/p10.rs `find_user_nick`: first user whose nick is byte-equal to the
query (the source iterates the same global list that the daemon passes in). -/
def find_user_nick (st : NeroState) (nick : ByteStr) : Option Nat :=
  st.users.find? (fun uid => decide ((heapUser st uid).base.nick = nick))

/-- src/core_data.rs `PluginApi::get_user_by_nick` for `NeroData`: scan the
global user list, return the first byte-equal nick's base record. -/
def get_user_by_nick (st : NeroState) (nick : ByteStr) : Option BaseUser :=
  (st.users.find? (fun uid => decide ((heapUser st uid).base.nick = nick))).map
    (fun uid => (heapUser st uid).base)

/-! ## IRC command builders (src/p10.rs) -/

/-- src/p10.rs `p10_get_numeric`: the configured numeric (unwrap of the
config option, which the spec marks required). -/
def p10_get_numeric (st : NeroState) : ByteStr :=
  st.config.numeric

/-- src/p10.rs `p10_irc_user`: the `N` burst line for one local user. -/
def p10_irc_user (numeric : ByteStr) (now : Nat) (u : UserObj) : ByteStr :=
  numeric ++ bs " N " ++ u.base.nick ++ bs " 1 " ++ natDecimalBytes now ++ [32] ++
    u.base.ident ++ [32] ++ u.base.host ++ bs " +iok _ " ++ u.numeric ++
    bs " :" ++ u.base.gecos

/-- src/p10.rs `p10_irc_eob`. -/
def p10_irc_eob (st : NeroState) : ByteStr :=
  p10_get_numeric st ++ bs " EB"

/-- src/p10.rs `p10_irc_eob_ack`. -/
def p10_irc_eob_ack (st : NeroState) : ByteStr :=
  p10_get_numeric st ++ bs " EA"

/-- src/p10.rs `p10_irc_pong_asll`. -/
def p10_irc_pong_asll (st : NeroState) (who orig_ts : ByteStr) : ByteStr :=
  p10_get_numeric st ++ bs " Z " ++ who ++ [32] ++ orig_ts ++ bs " 0 " ++ orig_ts

/-- One chunk of src/p10.rs `p10_irc_textmessage`: the Rust slice
`message[begin..end]` panics (`none`) when `end` exceeds the message length
(`begin ≤ end` always holds for the computed bounds). -/
def ircTextChunk (pfx message : ByteStr) (ii : Nat) : Option ByteStr :=
  let begin_ := ii * 500
  let end_ := if (ii + 1) * 500 > message.length then message.length + ii * 500
              else (ii + 1) * 500
  if begin_ ≤ end_ ∧ end_ ≤ message.length then
    some (pfx ++ ((message.drop begin_).take (end_ - begin_)))
  else none

/-- src/p10.rs `p10_irc_textmessage`: build the
`<source> P|O <target> :` prefix, compute the chunk count with
`ceiling_division` over message-plus-prefix, and emit one line per chunk.
`cmd` is the command byte (80 for `P`, 79 for `O`).  `none` models the
out-of-bounds slice panic described at `ircTextChunk`. -/
def p10_irc_textmessage (source target message : ByteStr) (cmd : Nat) : Option (List ByteStr) :=
  let pfx := source ++ [32, cmd, 32] ++ target ++ [32, 58]
  let message_count := ceiling_division (message.length + pfx.length) 500
  (List.range message_count).mapM (ircTextChunk pfx message)

/-- src/p10.rs `p10_irc_privmsg`. -/
def p10_irc_privmsg (source target message : ByteStr) : Option (List ByteStr) :=
  p10_irc_textmessage source target message 80

/-- src/p10.rs `p10_irc_notice`. -/
def p10_irc_notice (source target message : ByteStr) : Option (List ByteStr) :=
  p10_irc_textmessage source target message 79

/-! ## Command handlers (src/p10.rs)

Every handler mirrors the Rust `Result<(), ()>` as a `Bool` (`true` = `Ok`):
an `Err` only produces a `PARSE ERROR` log line in `process` and the
connection continues.  A Rust panic (failed `unwrap`, explicit `panic!`,
out-of-bounds index) is `Option.none`.  Hook firing (`fire_hook`) iterates
the registered-events list, which no wire command ever extends; from the
startup state it is always empty, so firing is a no-op on the embedded
state and is recorded as such below. -/

/-- The single log line `p10_cmd_pass` can emit. -/
inductive PassLog where
  | mismatch
  deriving Repr, DecidableEq

/-- src/p10.rs `p10_cmd_pass`: two arguments required; once an uplink is
registered the handler returns `Ok` immediately; otherwise a password
mismatch is logged but still `Ok`.  The second component records the log
lines emitted. -/
def p10_cmd_pass (st : NeroState) (argc : Nat) (argv : List ByteStr) :
    (Bool × NeroState) × List PassLog :=
  if ¬ argc = 2 then ((false, st), [])
  else if st.uplink.isSome then ((true, st), [])
  else if ¬ st.config.recvPass = argv.getD 1 [] then ((true, st), [PassLog.mismatch])
  else ((true, st), [])

/-- One step of the channel loop of `p10_burst_our_users`: record the
channel's lowered name in `unbursted_channels` unless already present. -/
def burstChanStep (s : NeroState) (ch : ChannelObj) : NeroState :=
  let lowered := u8_slice_to_lower ch.name
  if s.unbursted.contains lowered then s
  else { s with unbursted := s.unbursted ++ [lowered] }

/-- src/p10.rs `p10_burst_our_users`: emit an `N` line for every user owned
by `me` (server index 0), then record every channel's lowered name in
`unbursted_channels` (skipping names already present). -/
def p10_burst_our_users (st : NeroState) : NeroState :=
  let numeric := p10_get_numeric st
  let lines := (heapServer st 0).userIds.map
    (fun uid => p10_irc_user numeric st.now (heapUser st uid))
  let st1 := { st with writeBuffer := st.writeBuffer ++ lines }
  st.channels.foldl burstChanStep st1

/-- src/p10.rs `p10_cmd_server`.  With fewer than 8 arguments: `Err`.  The
source then reads `argv[8]` and `argv[6][1]`, which panic when exactly 8
arguments arrived or the numeric token is a single byte.  The first server
becomes the uplink and triggers the local-user burst; later servers get
their uplink pointer from the origin.  The trailing
`assert!(core_data.uplink.is_some())` holds on both paths. -/
def p10_cmd_server (st : NeroState) (origin : ByteStr) (argc : Nat)
    (argv : List ByteStr) : Option (Bool × NeroState) :=
  if argc < 8 then some (false, st)
  else
    match argv.get? 1, argv.get? 8, (argv.getD 6 []).get? 0, (argv.getD 6 []).get? 1 with
    | some hostname, some description, some n0, some n1 =>
      let sv := { serverNew hostname description with
                  numeric := [n0, n1],
                  hops := (rustParseI8 (argv.getD 2 [])).getD 0,
                  boot := (rustParseU64 (argv.getD 3 [])).getD 0,
                  linkTime := (rustParseU64 (argv.getD 4 [])).getD 0 }
      if st.uplink.isNone then
        let newSid := st.servers.length
        let st1 := p10_burst_our_users { st with uplink := some newSid }
        some (true, { st1 with servers := st1.servers ++ [sv] })
      else
        let sv1 := { sv with uplinkSid := find_server_numeric st origin }
        some (true, { st with servers := st.servers ++ [sv1] })
    | _, _, _, _ => none

/-- src/p10.rs `p10_cmd_eb`: unwrapping a missing uplink panics; an unknown
origin server is `Err`; when the sender's hostname equals the uplink's the
daemon queues its own `EB` then `EA`; the sender's self-burst flag is
cleared.  The connection phase is not touched. -/
def p10_cmd_eb (st : NeroState) (origin : ByteStr) : Option (Bool × NeroState) :=
  match st.uplink with
  | none => none
  | some upSid =>
    let myHostname := (heapServer st upSid).hostname
    match find_server_numeric st origin with
    | none => some (false, st)
    | some sid =>
      let st1 := if (heapServer st sid).hostname = myHostname then
          addToBuffer (addToBuffer st (p10_irc_eob st)) (p10_irc_eob_ack st)
        else st
      some (true, updServerAt st1 sid (fun sv => { sv with selfBurst := false }))

/-- src/p10.rs `p10_cmd_ea`: a no-op acknowledgement. -/
def p10_cmd_ea (st : NeroState) (_origin : ByteStr) : Option (Bool × NeroState) :=
  some (true, st)

/-- src/p10.rs `p10_cmd_gl`: g-lines are accepted and ignored. -/
def p10_cmd_gl (st : NeroState) (_origin : ByteStr) (_argc : Nat)
    (_argv : List ByteStr) : Option (Bool × NeroState) :=
  some (true, st)

/-- src/p10.rs `p10_cmd_g`: with more than 3 arguments, queue the
`Z` pong built from `argv[2]` and `argv[3]`; always `Ok`. -/
def p10_cmd_g (st : NeroState) (_origin : ByteStr) (argc : Nat)
    (argv : List ByteStr) : Option (Bool × NeroState) :=
  if argc > 3 then
    some (true, addToBuffer st (p10_irc_pong_asll st (argv.getD 2 []) (argv.getD 3 [])))
  else some (true, st)

/-- src/p10.rs `p10_cmd_textmessage` (`P` and `O`).  Unknown sender: `Err`.
A target that does not start with `#` or `&` on a PRIVMSG is a bot target;
the source then calls `.unwrap()` on the target-user lookup, which panics
(`none`) when no user has that numnick.  Hook dispatch itself does not
change the embedded state (empty hook list, see the section comment). -/
def p10_cmd_textmessage (st : NeroState) (origin : ByteStr) (argc : Nat)
    (argv : List ByteStr) (is_privmsg : Bool) : Option (Bool × NeroState) :=
  if argc < 2 then some (false, st)
  else
    match find_user_numeric st origin with
    | none => some (false, st)
    | some _uid =>
      let target := argv.getD 1 []
      let targetPfx := target.headD 0
      let isChanTarget := targetPfx = 35 ∨ targetPfx = 38
      if ¬ isChanTarget ∧ is_privmsg then
        match find_user_numeric st target with
        | none => none
        | some _t => some (true, st)
      else some (true, st)

/-- src/p10.rs `p10_set_channel_topic`: store the topic, stamp
`topic_time` with `now`, and record the origin user's nick when known. -/
def p10_set_channel_topic (st : NeroState) (chanIdx : Nat) (optUid : Option Nat)
    (topic : ByteStr) : NeroState :=
  let st1 := updChannelAt st chanIdx
    (fun ch => { ch with topic := topic, topicTime := st.now })
  match optUid with
  | some uid => updChannelAt st1 chanIdx
      (fun ch => { ch with topicNick := (heapUser st uid).base.nick })
  | none => st1

/-- src/p10.rs `p10_cmd_t`: unknown channel is `Err`; `argv[3]` is the
topic time when at least 5 arguments arrived (malformed falls back to 0),
otherwise `now`; the topic is the final argument. -/
def p10_cmd_t (st : NeroState) (origin : ByteStr) (argc : Nat)
    (argv : List ByteStr) : Option (Bool × NeroState) :=
  if argc < 3 then some (false, st)
  else
    match find_channel st (argv.getD 1 []) with
    | none => some (false, st)
    | some ci =>
      let topicTime := if argc ≥ 5 then (rustParseU64 (argv.getD 3 [])).getD 0 else st.now
      let optUid := find_user_numeric st origin
      let st1 := p10_set_channel_topic st ci optUid (argv.getD (argc - 1) [])
      some (true, updChannelAt st1 ci (fun ch => { ch with topicTime := topicTime }))

/-- src/p10.rs `p10_add_channel_member`: an unknown member numnick is the
Rust `Err` (`Except.error`); otherwise a member node holding the user is
pushed; the first member of a channel that is neither registered (`+z`)
nor APASS-protected (`+A`) is granted chanop.  Returns the new member's
index in the channel. -/
def p10_add_channel_member (st : NeroState) (chanIdx : Nat) (userbuf : ByteStr) :
    Except Unit (Nat × NeroState) :=
  match find_user_numeric st userbuf with
  | none => Except.error ()
  | some uid =>
    let member : Member := { modes := 0, idle := st.now, oplevel := 0, uid := uid }
    let st1 := updChannelAt st chanIdx
      (fun ch => { ch with members := ch.members ++ [member] })
    let c := chanAt st1 chanIdx
    let memIdx := c.members.length - 1
    if c.members.length = 1 ∧ c.modes &&& CMODE_REGISTERED = 0 ∧
        c.modes &&& CMODE_APASS = 0 then
      let opped := { member with modes := member.modes ||| MMODE_CHANOP }
      Except.ok (memIdx, updChannelAt st1 chanIdx
        (fun ch => { ch with members := ch.members.set memIdx opped }))
    else Except.ok (memIdx, st1)

/-- src/p10.rs `p10_add_channel`.  An existing channel (case-folded lookup)
keeps everything except that a strictly older incoming creation time
overwrites the stored one and clears topic and topic-time.  A new channel
is created with the burst's modes and bans.  The Rust signature is
`Option<Rc<Channel>>` but both paths return `Some`; `none` here models only
the limit-parse panic inside `p10_set_channel_modes` on the creation path. -/
def p10_add_channel (st : NeroState) (name : ByteStr) (created_time : Nat)
    (mode_list ban_list : ByteStr) : Option (Nat × NeroState) :=
  match find_channel st name with
  | some idx =>
    if (chanAt st idx).created > created_time then
      some (idx, updChannelAt st idx
        (fun c => { c with created := created_time, topicTime := 0, topic := [] }))
    else some (idx, st)
  | none =>
    match p10_set_channel_modes (channelNew name created_time) mode_list with
    | none => none
    | some ch1 =>
      let ch2 := p10_set_channel_bans ch1 ban_list
      some (st.channels.length, { st with channels := st.channels ++ [ch2] })

/-- src/p10.rs `p10_del_user`: numnick length outside 3..5 is `Err`.  The
global-list scan panics (explicit `panic!`, or `remove(0)` on an empty
list) when no user carries the numnick; the same pattern repeats on the
owning server's list after the 2-byte-prefix server lookup, whose
`.unwrap()` panics when that server does not exist. -/
def p10_del_user (st : NeroState) (numeric : ByteStr) : Option (Bool × NeroState) :=
  if numeric.length < 3 ∨ numeric.length > 5 then some (false, st)
  else
    match findIdxScan (fun uid => decide ((heapUser st uid).numeric = numeric)) st.users with
    | none => none
    | some gidx =>
      let st1 := { st with users := st.users.eraseIdx gidx }
      match find_server_from_user st1 numeric with
      | none => none
      | some sid =>
        match findIdxScan (fun uid => decide ((heapUser st1 uid).numeric = numeric))
            (heapServer st1 sid).userIds with
        | none => none
        | some sidx =>
          some (true, updServerAt st1 sid
            (fun sv => { sv with userIds := sv.userIds.eraseIdx sidx }))

/-- src/p10.rs `p10_add_user`: decode the real IP (whose internal indexing
can panic, see `base64_to_vecu8`), validate the numnick length and the
uplink, fill in the user record, apply the mode string (whose `r` arm can
panic), then push the node onto the owning server's list and the global
list.  `Except.error` is the Rust `Err`. -/
def p10_add_user (st : NeroState) (optUplink : Option Nat)
    (nick ident hostname modes numeric gecos timestamp realip : ByteStr) :
    Option (Except Unit (Nat × NeroState)) :=
  match base64_to_vecu8 realip with
  | none => none
  | some decimal_ip =>
    if numeric.length < 3 ∨ numeric.length > 5 then some (Except.error ())
    else
      match optUplink with
      | none => some (Except.error ())
      | some sid =>
        let u0 := userNew nick ident hostname sid
        let u1 := { u0 with
                    base := { u0.base with ip := decimal_ip, gecos := gecos },
                    numeric := numeric,
                    timestamp := (rustParseU64 timestamp).getD 0 }
        match p10_set_user_modes u1 modes with
        | none => none
        | some u2 =>
          let uid := st.userHeap.length
          let st1 := { st with userHeap := st.userHeap ++ [u2] }
          let st2 := updServerAt st1 sid
            (fun sv => { sv with userIds := sv.userIds ++ [uid] })
          some (Except.ok (uid, { st2 with users := st2.users ++ [uid] }))

/-- src/p10.rs `p10_cmd_n`: when the origin resolves to a known user this
is a nick change (2 arguments required); otherwise a new-user burst with at
least 9 arguments, the mode words being `argv[6..argc-3]` (just `+` when
there are none). -/
def p10_cmd_n (st : NeroState) (origin : ByteStr) (argc : Nat)
    (argv : List ByteStr) : Option (Bool × NeroState) :=
  match find_user_numeric st origin with
  | some uid =>
    if argc < 2 then some (false, st)
    else some (true, updUserAt st uid
      (fun u => { u with base := { u.base with nick := argv.getD 1 [] } }))
  | none =>
    if argc < 9 then some (false, st)
    else
      let server := find_server_numeric st origin
      let modes := if argc > 9 then unsplit_string argv argc 6 (argc - 9) else [43]
      match p10_add_user st server (argv.getD 1 []) (argv.getD 4 []) (argv.getD 5 [])
          modes (argv.getD (argc - 2) []) (argv.getD (argc - 1) [])
          (argv.getD 3 []) (argv.getD (argc - 3) []) with
      | none => none
      | some (Except.error _) => some (false, st)
      | some (Except.ok (_, st1)) => some (true, st1)

/-- src/p10.rs `p10_cmd_q`: unknown origin user is `Err`; the `UserQuit`
hook fires (no state effect, empty hook list) and the user is deleted. -/
def p10_cmd_q (st : NeroState) (origin : ByteStr) (_argc : Nat)
    (_argv : List ByteStr) : Option (Bool × NeroState) :=
  match find_user_numeric st origin with
  | none => some (false, st)
  | some _uid => p10_del_user st origin

/-- src/p10.rs `p10_build_channel_mode_string`: letters for mode bits 0..14
from the table `psmtinkblDrcCzAu`, then the limit, key, upass and apass
arguments, each guarded by an `assert!` that the matching bit is set
(failure is a panic, hence `none`). -/
def p10_build_channel_mode_string (modes limit : Nat) (keyOption : Option ByteStr)
    (upass apass : Option ByteStr) : Option ByteStr :=
  let table := bs "psmtinkblDrcCzAu"
  let buf0 := (List.range 15).foldl
    (fun acc ii => if modes &&& (1 <<< ii) > 0 then acc ++ [table.getD ii 0] else acc) []
  if limit > 0 ∧ modes &&& CMODE_LIMIT = 0 then none
  else
    let buf1 := if limit > 0 then buf0 ++ [32] ++ natDecimalBytes limit else buf0
    if keyOption.isSome ∧ modes &&& CMODE_KEY = 0 then none
    else
      let buf2 := match keyOption with
        | some k => buf1 ++ [32] ++ k
        | none => buf1
      if upass.isSome ∧ modes &&& CMODE_UPASS = 0 then none
      else
        let buf3 := match upass with
          | some u => buf2 ++ [32] ++ u
          | none => buf2
        if apass.isSome ∧ modes &&& CMODE_APASS = 0 then none
        else
          some (match apass with
            | some a => buf3 ++ [32] ++ a
            | none => buf3)

/-- The member loop of src/p10.rs `p10_burst_our_channel`: walk the channel
members keeping the last emitted (op, voice) run; flush the line to the
output when the next element would reach 500 bytes.  Returns the pending
line and the flushed lines, in order. -/
def burstMembersGo (st0 : NeroState) (baseBurst : ByteStr) :
    List Member → Bool → Bool → ByteStr → List ByteStr → ByteStr × List ByteStr
  | [], _, _, burst, acc => (burst, acc)
  | m :: rest, wasOpped, wasVoiced, burst, acc =>
    let unum := (heapUser st0 m.uid).numeric
    let s1 := if m.modes &&& MMODE_CHANOP > 0 ∧ ¬ wasOpped
              then (true, true, 1) else (false, wasOpped, 0)
    let s2 := if m.modes &&& MMODE_VOICE > 0 ∧ ¬ wasVoiced
              then (true, true, s1.2.2 + 1) else (s1.1, wasVoiced, s1.2.2)
    let s3 := if m.modes &&& MMODE_CHANOP = 0 ∧ s1.2.1 then (true, false) else (s2.1, s1.2.1)
    let s4 := if m.modes &&& MMODE_VOICE = 0 ∧ s2.2.1 then (true, false) else (s3.1, s2.2.1)
    let needColon := s4.1
    let oplen := if needColon then s2.2.2 + 1 else s2.2.2
    let fl := if burst.length + unum.length + oplen + 1 ≥ 500
              then (acc ++ [burst], baseBurst) else (acc, burst)
    let burst1 := fl.2 ++ unum
    let burst2 := if needColon then
        burst1 ++ [58] ++ (if m.modes &&& MMODE_CHANOP > 0 then [111] else []) ++
          (if m.modes &&& MMODE_VOICE > 0 then [118] else [])
      else burst1
    burstMembersGo st0 baseBurst rest s3.2 s4.2 (burst2 ++ [44]) fl.1

/-- The ban loop of src/p10.rs `p10_burst_our_channel`, kept faithful to
the source: the body assigns (rather than appends) `"<ban> "` to the
pending line, discarding what was accumulated. -/
def burstBansGo (baseBurst : ByteStr) :
    List ByteStr → Bool → ByteStr → List ByteStr → ByteStr × List ByteStr
  | [], _, burst, acc => (burst, acc)
  | ban :: rest, firstBan, burst, acc =>
    let fl := if burst.length + ban.length + 2 ≥ 500
              then (acc ++ [burst], baseBurst, true) else (acc, burst, firstBan)
    let _burst1 := if fl.2.2 then fl.2.1 ++ bs ":%" else fl.2.1
    let burst2 := ban ++ [32]
    burstBansGo baseBurst rest false burst2 fl.1

/-- src/p10.rs `p10_burst_our_channel`: build our own `B` burst for a
locally-owned channel and queue it.  `none` is an `assert!` failure inside
`p10_build_channel_mode_string`.  The `String::from_utf8(..).unwrap()` on
the local numeric cannot fail for a configured (UTF-8) numeric and is not
modelled separately.  Note `burst1` is built but discarded by the ban-loop
assignment bug when bans exist. -/
def p10_burst_our_channel (st : NeroState) (created : Nat) (chanIdx : Nat) :
    Option NeroState :=
  let ch := chanAt st chanIdx
  let localNumeric := (heapServer st 0).numeric
  let baseBurst := localNumeric ++ bs " B " ++ ch.name ++ [32] ++
    natDecimalBytes created ++ [32]
  match p10_build_channel_mode_string ch.modes ch.limit ch.key ch.upass ch.apass with
  | none => none
  | some chanModes =>
    let burst0 := baseBurst ++ [43] ++ chanModes ++ [32]
    let mres := burstMembersGo st baseBurst ch.members false false burst0 []
    let burst2 := mres.1.dropLast
    let bres := burstBansGo baseBurst ch.bans false burst2 []
    let lines := mres.2 ++ bres.2 ++
      (if ¬ bres.1.length = baseBurst.length then [bres.1] else [])
    some { st with writeBuffer := st.writeBuffer ++ lines }

/-- The argument scan of src/p10.rs `p10_cmd_b`, collecting the mode token
run, the `%`-ban token and the user-list token.  `n_modes` is declared
outside the `while` loop in the source and therefore accumulates across
`+` tokens; it starts at 1 and never decreases, so `next` advances by at
least one per iteration — `fuel` (instantiated with `argc`) bounds the
iteration count without changing the result. -/
def bScanArgs (argv : List ByteStr) (argc : Nat) :
    Nat → Nat → Nat → ByteStr → ByteStr → ByteStr → ByteStr × ByteStr × ByteStr
  | 0, _, _, ml, bl, ul => (ml, bl, ul)
  | fuel + 1, next, n_modes, ml, bl, ul =>
    if next < argc then
      let tok := argv.getD next []
      if tok.headD 0 = 43 then
        let n1 := n_modes + ((tok.drop 1).filter
          (fun b => b = 107 ∨ b = 108 ∨ b = 65 ∨ b = 85)).length
        let n2 := if next + n1 > argc then argc - next else n1
        bScanArgs argv argc fuel (next + n2) n2 (unsplit_string argv argc next n2) bl ul
      else if tok.headD 0 = 37 then
        bScanArgs argv argc fuel (next + 1) n_modes ml (tok.drop 1) ul
      else
        bScanArgs argv argc fuel (next + 1) n_modes ml bl tok
    else (ml, bl, ul)

/-- The `o`/`v`/digit run of a `B` user-list entry: returns the updated
(member modes, oplevel) pair; the source collapses any digit to the
literal 999. -/
def bApplyModeChar (mm op c : Nat) : Nat × Nat :=
  if c = 111 then (mm ||| MMODE_CHANOP, op)
  else if c = 118 then (mm ||| MMODE_VOICE, op)
  else if isDigitB c then (mm, 999)
  else (mm, op)

/-- Overwrite one member's modes and oplevel (the `member.base.modes = ..;
member.ext.oplevel = ..` assignments of `p10_cmd_b`). -/
def setMemberAt (st : NeroState) (chanIdx memIdx mm op : Nat) : NeroState :=
  updChannelAt st chanIdx (fun ch =>
    match ch.members.get? memIdx with
    | some m => { ch with members := ch.members.set memIdx { m with modes := mm, oplevel := op } }
    | none => ch)

/-- The user-list loop of src/p10.rs `p10_cmd_b`.  A `,`, or the final byte
of a list longer than one byte, closes the current entry: the final byte is
first folded into the entry (as a mode char after a `:`, as a numnick byte
otherwise), the member is added (a failed numnick lookup is only logged)
and its modes and oplevel are assigned.  A `:` zeroes the pending modes;
mode state is sticky across `,`. -/
def bUserLoopGo (ulen chanIdx : Nat) :
    List Nat → Nat → Nat → Nat → ByteStr → Bool → NeroState → NeroState
  | [], _, _, _, _, _, st => st
  | c :: rest, idx, mm, op, buf, colon, st =>
    if c = 44 ∨ (idx > 0 ∧ idx + 1 = ulen) then
      let mo := if idx + 1 = ulen ∧ colon then bApplyModeChar mm op c else (mm, op)
      let buf1 := if idx + 1 = ulen ∧ ¬ colon then buf ++ [c] else buf
      let st1 := match p10_add_channel_member st chanIdx buf1 with
        | Except.ok (memIdx, st') => setMemberAt st' chanIdx memIdx mo.1 mo.2
        | Except.error _ => st
      bUserLoopGo ulen chanIdx rest (idx + 1) mo.1 mo.2 [] false st1
    else if c = 58 then
      bUserLoopGo ulen chanIdx rest (idx + 1) 0 0 buf true st
    else if colon then
      let mo := bApplyModeChar mm op c
      bUserLoopGo ulen chanIdx rest (idx + 1) mo.1 mo.2 buf colon st
    else
      bUserLoopGo ulen chanIdx rest (idx + 1) mm op (buf ++ [c]) colon st

/-- src/p10.rs `p10_cmd_b`: fewer than 3 arguments is `Err`; parse the
creation time (malformed falls back to `now`); scan the argument suffix;
if the raw channel name is in `unbursted_channels`, emit our own burst
first (the `find_channel(..).unwrap()` panics when the channel is absent);
create or age the channel; then walk the user list. -/
def p10_cmd_b (st : NeroState) (argc : Nat) (argv : List ByteStr) :
    Option (Bool × NeroState) :=
  if argc < 3 then some (false, st)
  else
    let created_time := (rustParseU64 (argv.getD 2 [])).getD st.now
    let scan := bScanArgs argv argc argc 3 1 [] [] []
    let burstRes : Option NeroState :=
      if st.unbursted.contains (argv.getD 1 []) then
        match find_channel st (argv.getD 1 []) with
        | none => none
        | some ci => p10_burst_our_channel st created_time ci
      else some st
    match burstRes with
    | none => none
    | some st1 =>
      match p10_add_channel st1 (argv.getD 1 []) created_time scan.1 scan.2.1 with
      | none => none
      | some (chanIdx, st2) =>
        some (true, bUserLoopGo scan.2.2.length chanIdx scan.2.2 0 0 0 [] false st2)

/-! ## The protocol entry points (src/p10.rs `impl Protocol for P10`) -/

/-- `P10::start_handshake`: from Connecting, move to Bursting and queue the
`PASS` and `SERVER` introduction.  `epoch` stands for the wall-clock
`epoch_int()` read. -/
def start_handshake (epoch : Nat) (st : NeroState) : NeroState :=
  if st.connState = ConnectionState.Connecting then
    let st1 := { st with connState := ConnectionState.Bursting }
    let passLine := bs "PASS :" ++ st.config.sendPass
    let serverLine := bs "SERVER " ++ st.config.hostname ++ bs " 1 " ++
      natDecimalBytes epoch ++ [32] ++ natDecimalBytes epoch ++ bs " J10 " ++
      st.config.numeric ++ bs "A]] +s6 :" ++ st.config.description
    addToBuffer (addToBuffer st1 passLine) serverLine
  else st

/-- The origin-resolution block of `P10::process`: a token starting with
`:` is the long-form historical prefix minus its last byte; 2 bytes name a
server, 3 to 5 bytes a user; the resolved entity's stored numeric is the
origin, empty when unmatched. -/
def computeOrigin (st : NeroState) (a0 : ByteStr) : ByteStr :=
  if a0.headD 0 = 58 then a0.dropLast
  else if a0.length < 2 ∨ a0.length < 3 then
    match find_server_numeric st a0 with
    | some sid => (heapServer st sid).numeric
    | none => []
  else
    match find_user_numeric st a0 with
    | some uid => (heapUser st uid).numeric
    | none => []

/-- The command-dispatch `match` of `P10::process`.  An unknown command is
the `_ => Err(())` arm.  The `PASS` arm drops the handler's log component
(the daemon's logger is outside the store). -/
def dispatchCmd (st : NeroState) (origin command : ByteStr) (hargc : Nat)
    (newargv : List ByteStr) : Option (Bool × NeroState) :=
  if command = bs "SERVER" then p10_cmd_server st origin hargc newargv
  else if command = bs "PASS" then some (p10_cmd_pass st hargc newargv).1
  else if command = bs "S" then p10_cmd_server st origin hargc newargv
  else if command = bs "N" then p10_cmd_n st origin hargc newargv
  else if command = bs "Q" then p10_cmd_q st origin hargc newargv
  else if command = bs "B" then p10_cmd_b st hargc newargv
  else if command = bs "T" then p10_cmd_t st origin hargc newargv
  else if command = bs "G" then p10_cmd_g st origin hargc newargv
  else if command = bs "P" then p10_cmd_textmessage st origin hargc newargv true
  else if command = bs "O" then p10_cmd_textmessage st origin hargc newargv false
  else if command = bs "GL" then p10_cmd_gl st origin hargc newargv
  else if command = bs "EB" then p10_cmd_eb st origin
  else if command = bs "EA" then p10_cmd_ea st origin
  else some (false, st)

/-- `P10::process` on one wire line.  `nowVal` stands for the wall-clock
`epoch_int() + skew` read at the top.  Tokenize; an empty line does
nothing.  `cmd` picks whether token 0 is an origin.  When the first token
is neither `SERVER` nor `PASS`, `assert!(core_data.uplink.is_some())`
panics on an unregistered link (the subsequent `assert_eq!(cmd, 1)` then
always holds).  An `Err` from a handler logs `PARSE ERROR` and the
connection continues. -/
def process (nowVal : Nat) (message : ByteStr) (st0 : NeroState) : Option NeroState :=
  let st := { st0 with now := nowVal }
  let argv := split_line message
  if argv.isEmpty then some st
  else
    let a0 := argv.headD []
    let cmd : Nat := if a0.length < 2 ∨ a0.length < 3 ∨ st.uplink.isSome then 1 else 0
    if ¬ a0 = bs "SERVER" ∧ ¬ a0 = bs "PASS" ∧ st.uplink.isNone then none
    else
      let argc := argv.length
      if argc > cmd then
        let origin : ByteStr := if cmd > 0 then computeOrigin st a0 else []
        let newargv := if cmd > 0 then argv.drop 1 else argv
        (dispatchCmd st origin (argv.getD cmd []) (argc - cmd) newargv).map
          (fun r => r.2)
      else some st

/-- Run `process` over a list of `(wall clock, line)` pairs; `none` as soon
as any line panics. -/
def processSeq (st : NeroState) : List (Nat × ByteStr) → Option NeroState
  | [] => some st
  | (nowVal, line) :: rest =>
    match process nowVal line st with
    | none => none
    | some st' => processSeq st' rest

/-! ## Store-consistency invariant (claim C3) and supporting predicates -/

/-- The per-server user lists (each entry is one server's `users` vector,
as arena indices). -/
def srvUserLists (st : NeroState) : List (List Nat) :=
  st.servers.map (fun sv => sv.userIds)

/-- The per-channel member lists, projected to the member's user index. -/
def chanUidLists (st : NeroState) : List (List Nat) :=
  st.channels.map (fun ch => ch.members.map (fun m => m.uid))

/-- Every user of the global list appears in exactly one server's user
list. -/
def usersOnOneServer (st : NeroState) : Bool :=
  st.users.all (fun uid =>
    (srvUserLists st).countP (fun l => l.contains uid) == 1)

/-- Every channel member refers to a user present in the global list. -/
def membersInGlobalList (st : NeroState) : Bool :=
  (chanUidLists st).all (fun l => l.all (fun uid => st.users.contains uid))

/-- The store-consistency property claimed for every reachable state. -/
def C3check (st : NeroState) : Bool :=
  usersOnOneServer st && membersInGlobalList st

/-- Inductive strengthening of `C3check`: the two claimed conjuncts plus
bounds saying every stored user index points into the arena (in Rust these
are `Rc` handles and the bounds are automatic). -/
def InvP (st : NeroState) : Prop :=
  (∀ uid ∈ st.users, uid < st.userHeap.length) ∧
  (∀ l ∈ srvUserLists st, ∀ uid ∈ l, uid < st.userHeap.length) ∧
  (∀ l ∈ chanUidLists st, ∀ uid ∈ l, uid ∈ st.users) ∧
  (∀ uid ∈ st.users, (srvUserLists st).countP (fun l => l.contains uid) = 1)

/-- A line that cannot dispatch to the quit handler: neither its first nor
its second token is `Q` (the command token is one of those two). -/
def noQTokens (line : ByteStr) : Bool :=
  decide (¬ (split_line line).getD 0 [] = bs "Q") &&
  decide (¬ (split_line line).getD 1 [] = bs "Q")

/-! ## Concrete fixtures used by the claim theorems and witnesses -/

/-- A startup configuration (numeric `ZZ`). -/
def cfgZ : Config :=
  { hostname := bs "nero.host", description := bs "mydesc",
    sendPass := bs "spw", recvPass := bs "rpw", numeric := bs "ZZ" }

/-- The daemon right after its handshake: phase Bursting, `PASS` and
`SERVER` queued. -/
def stBursting : NeroState :=
  start_handshake 50 (initialState cfgZ)

/-- The uplink's own `SERVER` introduction (numeric `AB`). -/
def lineServerAB : ByteStr :=
  bs "SERVER peer.example 1 100 100 J10 AB]]] +s6 :peer"

/-- A new-user burst for `alice`, numnick `ABAAB`, from server `AB`. -/
def lineNAlice : ByteStr :=
  bs "AB N alice 1 200 a alice.host +iwx B]AAAB ABAAB :Alice"

/-- A channel burst joining `alice` to `#room` with op and voice. -/
def lineBRoom : ByteStr :=
  bs "AB B #room 150 +ntl 10 ABAAB:ov"

/-- `alice` quits. -/
def lineQuit : ByteStr :=
  bs "ABAAB Q :bye"

/-- End-of-burst from the direct uplink. -/
def lineEB : ByteStr :=
  bs "AB EB"

/-- A PRIVMSG from `alice` to the unknown user numnick `QQQQQ`. -/
def linePrivmsgBot : ByteStr :=
  bs "ABAAB P QQQQQ :hi"

/-- Uplink registration followed by the uplink's end-of-burst. -/
def c1Pairs : List (Nat × ByteStr) :=
  [(60, lineServerAB), (70, lineEB)]

/-- Uplink registration plus one user: a benign prefix. -/
def c2OkPairs : List (Nat × ByteStr) :=
  [(60, lineServerAB), (61, lineNAlice)]

/-- The benign prefix followed by the bot-target PRIVMSG. -/
def c2Pairs : List (Nat × ByteStr) :=
  c2OkPairs ++ [(62, linePrivmsgBot)]

/-- Register, add a user, join it to a channel, then quit it. -/
def c3CexPairs : List (Nat × ByteStr) :=
  [(60, lineServerAB), (61, lineNAlice), (62, lineBRoom), (63, lineQuit)]

/-- The user-mode fixture of the repository's own tests. -/
def c5User : UserObj :=
  userNew (bs "test") (bs "kvirc") (bs "some.host.name") 0

/-- The channel fixture of the repository's own tests. -/
def c6Chan : ChannelObj :=
  channelNew (bs "#nero") 0

/-- A stored channel with a topic and creation time 200. -/
def c7Chan : ChannelObj :=
  { channelNew (bs "#room") 200 with topic := bs "old topic", topicTime := 180 }

/-- A store holding only `c7Chan`. -/
def c7State : NeroState :=
  { initialState cfgZ with channels := [c7Chan] }

/-- A stored channel carrying modes, a limit and a ban. -/
def c9Chan : ChannelObj :=
  { channelNew (bs "#room") 150 with
    modes := CMODE_NOPRIVMSGS ||| CMODE_LIMIT, limit := 10,
    bans := [bs "*!*@bad"] }

/-- A store holding only `c9Chan`. -/
def c9State : NeroState :=
  { initialState cfgZ with channels := [c9Chan] }

/-- A later-timestamp `B` for `#room` with no member list. -/
def c9Argv : List ByteStr :=
  [bs "B", bs "#room", bs "200"]

/-- A stored user whose nick carries an upper-case letter. -/
def c8User : UserObj :=
  { userNew (bs "Alice") (bs "id") (bs "host") 0 with numeric := bs "ABAAB" }

/-- A store holding only `c8User`. -/
def c8State : NeroState :=
  { initialState cfgZ with userHeap := [c8User], users := [0] }

/-- A state whose uplink is already registered (pointing at `me`). -/
def c10State : NeroState :=
  { initialState cfgZ with uplink := some 0 }

/-- The channel fields claim C9 asserts are untouched by a `B` for an
existing channel: everything except creation time, topic, topic time and
the member list. -/
def chFrame (ch : ChannelObj) :
    ByteStr × Nat × Nat × Option ByteStr × List ByteStr × ByteStr × Bool ×
      Option ByteStr × Option ByteStr :=
  (ch.name, ch.modes, ch.limit, ch.key, ch.bans, ch.topicNick,
   ch.delayedJoin, ch.upass, ch.apass)

/-- The channel fields the mode and ban engines never touch (used to relate
a freshly created channel to its `Channel::new` seed). -/
def chCore (ch : ChannelObj) : ByteStr × Nat × ByteStr × Nat × List Member :=
  (ch.name, ch.created, ch.topic, ch.topicTime, ch.members)

/-! # Theorems -/

set_option maxRecDepth 100000

/-- Claim C1.  When the daemon is Bursting and processes `EB` from the
direct uplink, the outbound buffer gains exactly `<me> EB` then `<me> EA`
(buffer grows from the 2 handshake lines to 4): that part of the claim
holds.  The connection phase, however, remains `Bursting`: nothing in the
source ever assigns `ConnectionState::Connected`, so the claimed
transition to Connected does not happen. -/
theorem C1_eb_emits_but_no_transition :
    (processSeq stBursting c1Pairs).map
      (fun st => (st.connState, st.writeBuffer.length, st.writeBuffer.drop 2)) =
      some (ConnectionState.Bursting, 4, [bs "ZZ EB", bs "ZZ EA"]) := by
  decide

/-- Claim C2.  A well-formed `P` line whose sender exists but whose
non-channel target numnick is unknown reaches the `.unwrap()` at
src/p10.rs:491 and panics, instead of returning an error value: the benign
two-line prefix processes fine, and appending the PRIVMSG line makes the
run panic (`none`). -/
theorem C2_missing_target_panics :
    (processSeq stBursting c2OkPairs).isSome = true ∧
    processSeq stBursting c2Pairs = none := by
  decide

/-- Claim C3, counterexample.  After registering the uplink, bursting user
`alice`, joining her to `#room` and processing her `Q`, the run completes
without a panic but the store violates the claimed invariant: the quit
removed her from the global and server lists yet her channel membership
survives, so a member of `#room` refers to a user absent from the global
list. -/
theorem C3_quit_breaks_invariant :
    (processSeq stBursting c3CexPairs).map C3check = some false := by
  decide

/-- Claim C4.  A message that fits one chunk (485 bytes plus the 15-byte
prefix `ABAAB P #room :` is exactly 500) emits exactly one line of 500
bytes.  But as soon as the chunk count is 2 the second slice bound is
computed as `message.len() + 500`, which is out of bounds, and the function
panics instead of emitting `ceil((n + len(prefix)) / 500)` lines: both a
486-byte and a 501-byte message panic (`none`). -/
theorem C4_chunking_panics_beyond_one_chunk :
    (p10_irc_privmsg (bs "ABAAB") (bs "#room") (List.replicate 485 97)).map
      (fun ls => ls.map List.length) = some [500] ∧
    p10_irc_privmsg (bs "ABAAB") (bs "#room") (List.replicate 486 97) = none ∧
    p10_irc_privmsg (bs "ABAAB") (bs "#room") (List.replicate 501 97) = none := by
  decide

/-- Claim C5.  Applying `+o` and then `-o` to a fresh user leaves the OPER
bit set (the remove branch of `p10_set_user_mode_helper` computes
`modes &= flag`, keeping exactly the bit it was asked to clear), while the
claim requires the corresponding bits to be zero. -/
theorem C5_plus_minus_o_keeps_oper :
    ((p10_set_user_modes c5User (bs "+o")).bind
      (fun u => p10_set_user_modes u (bs "-o"))).map
        (fun u => u.base.modes) = some UMODE_OPER := by
  decide

/-- Claim C6.  `+l` with the non-numeric argument `x` panics in
`p10_set_channel_modes` (the `parse().unwrap()` at src/p10.rs:829) instead
of falling back to limit 0; a well-formed `+ntl 34` confirms the normal
path (the repository's own test values). -/
theorem C6_malformed_limit_panics :
    p10_set_channel_modes c6Chan (bs "+l x") = none ∧
    (p10_set_channel_modes c6Chan (bs "+ntl 34")).map
      (fun c => (c.modes, c.limit)) =
      some (CMODE_NOPRIVMSGS ||| CMODE_TOPICLIMIT ||| CMODE_LIMIT, 34) := by
  decide

/-- Claim C8, counterexample.  The queries `alice` and `Alice` are equal up
to ASCII case, a user with nick `Alice` is stored, yet the nick lookup of
src/core_data.rs compares bytes exactly and returns nothing for `alice`. -/
theorem C8_nick_lookup_is_not_case_insensitive :
    u8_slice_to_lower (bs "alice") = u8_slice_to_lower (bs "Alice") ∧
    get_user_by_nick c8State (bs "alice") = none := by
  decide

/-- Claim C8 as amended: both user lookups are byte-exact.  A nick lookup
answers exactly when some stored user's nick equals the query
byte-for-byte, and the answer carries that nick; the numnick lookup
likewise matches byte-exactly; `find_user_nick` (the protocol-side nick
scan) is byte-exact as well. -/
theorem C8_lookups_byte_exact (st : NeroState) (q : ByteStr) :
    (∀ b, get_user_by_nick st q = some b → b.nick = q) ∧
    ((∃ uid ∈ st.users, (heapUser st uid).base.nick = q) →
      ∃ b, get_user_by_nick st q = some b ∧ b.nick = q) ∧
    (∀ uid, find_user_numeric st q = some uid → (heapUser st uid).numeric = q) ∧
    ((∃ uid ∈ st.users, (heapUser st uid).numeric = q) →
      ∃ uid, find_user_numeric st q = some uid ∧ (heapUser st uid).numeric = q) ∧
    (∀ uid, find_user_nick st q = some uid → (heapUser st uid).base.nick = q) := by
  refine ⟨?_, ?_, ?_, ?_, ?_⟩
  · intro b hb
    unfold get_user_by_nick at hb
    obtain ⟨uid, hf, hbase⟩ := Option.map_eq_some'.mp hb
    have h2 := List.find?_some hf
    rw [← hbase]
    simpa using h2
  · rintro ⟨uid, hmem, hnick⟩
    cases hf : st.users.find? (fun u => decide ((heapUser st u).base.nick = q)) with
    | none =>
      exact absurd (decide_eq_true hnick) (List.find?_eq_none.mp hf uid hmem)
    | some u =>
      have h2 := List.find?_some hf
      refine ⟨(heapUser st u).base, ?_, by simpa using h2⟩
      unfold get_user_by_nick
      rw [hf]
      rfl
  · intro uid hf
    unfold find_user_numeric at hf
    have h2 := List.find?_some hf
    simpa using h2
  · rintro ⟨uid, hmem, hnum⟩
    cases hf : st.users.find? (fun u => decide ((heapUser st u).numeric = q)) with
    | none =>
      exact absurd (decide_eq_true hnum) (List.find?_eq_none.mp hf uid hmem)
    | some u =>
      have h2 := List.find?_some hf
      exact ⟨u, hf, by simpa using h2⟩
  · intro uid hf
    unfold find_user_nick at hf
    have h2 := List.find?_some hf
    simpa using h2

/-- Witness for `C8_lookups_byte_exact`: the byte-exact query `Alice`
against the store holding `c8User` answers with that nick. -/
theorem C8_lookups_byte_exact_witness :
    ∃ b, get_user_by_nick c8State (bs "Alice") = some b ∧ b.nick = bs "Alice" :=
  (C8_lookups_byte_exact c8State (bs "Alice")).2.1 ⟨0, by decide, by decide⟩

/-- Claim C10.  Once an uplink is registered, `PASS` with exactly two
tokens succeeds immediately for every argument vector and every
configuration: the state is returned unchanged and no mismatch log line is
emitted (the password is never consulted, as the conclusion holds for all
`argv` and all configured `recv_pass`). -/
theorem C10_pass_after_registration (st : NeroState) (argv : List ByteStr)
    (h : st.uplink.isSome = true) :
    p10_cmd_pass st 2 argv = ((true, st), []) := by
  unfold p10_cmd_pass
  simp [h]

/-- Witness for `C10_pass_after_registration`: a registered state and a
password that does not match the configured one. -/
theorem C10_pass_after_registration_witness :
    p10_cmd_pass c10State 2 [bs "PASS", bs "wrongpw"] = ((true, c10State), []) :=
  C10_pass_after_registration c10State [bs "PASS", bs "wrongpw"] (by decide)

/-! ### Channel-field preservation lemmas shared by C7, C9 and C3 -/

theorem chCore_helper (ch : ChannelObj) (a : Bool) (f : Nat) :
    chCore (p10_set_channel_mode_helper ch a f) = chCore ch := by
  unfold p10_set_channel_mode_helper
  split <;> rfl

theorem chCore_add_mode (ch : ChannelObj) (a : Bool) (m : Nat) :
    chCore (p10_add_channel_mode ch a m) = chCore ch := by
  unfold p10_add_channel_mode
  split <;> first
    | rfl
    | exact chCore_helper _ _ _

theorem chCore_letters (ls : List Nat) (ch : ChannelObj) :
    chCore (ls.foldl (fun c letter => p10_add_channel_mode c true letter) ch) =
      chCore ch := by
  induction ls generalizing ch with
  | nil => rfl
  | cons a rest ih => rw [List.foldl_cons, ih, chCore_add_mode]

theorem chCore_setArgs (toks : List ByteStr) (ch : ChannelObj) (found : Nat)
    (ch' : ChannelObj) (found' : Nat)
    (h : setChanModesArgs toks ch found = some (ch', found')) :
    chCore ch' = chCore ch := by
  induction toks generalizing ch found with
  | nil =>
    unfold setChanModesArgs at h
    injection h with h
    injection h with h1 _
    rw [h1]
  | cons tok rest ih =>
    unfold setChanModesArgs at h
    split at h
    · cases hp : rustParseU64 tok with
      | none => rw [hp] at h; exact absurd h (by simp)
      | some v => rw [hp] at h; exact (ih _ _ h).trans rfl
    · split at h
      · exact (ih _ _ h).trans rfl
      · split at h
        · exact (ih _ _ h).trans rfl
        · split at h
          · exact (ih _ _ h).trans rfl
          · exact ih _ _ h

theorem chCore_set_modes (ch ch' : ChannelObj) (ml : ByteStr)
    (h : p10_set_channel_modes ch ml = some ch') : chCore ch' = chCore ch := by
  simp only [p10_set_channel_modes] at h
  split at h
  · obtain ⟨pr, hs, hpr⟩ := Option.map_eq_some'.mp h
    rw [← hpr]
    exact (chCore_setArgs _ _ _ _ _ hs).trans (chCore_letters _ _)
  · injection h with h
    rw [← h]

theorem chCore_bans (ch : ChannelObj) (bl : ByteStr) :
    chCore (p10_set_channel_bans ch bl) = chCore ch := by
  unfold p10_set_channel_bans
  generalize split_string bl = entries
  induction entries generalizing ch with
  | nil => rfl
  | cons a rest ih => rw [List.foldl_cons]; exact (ih _).trans rfl

/-- Claim C7.  `p10_add_channel` creates the channel when absent (with the
given name and creation time and an empty topic); when present, a strictly
older incoming creation time overwrites the stored one and clears topic and
topic time, while an equal or newer incoming time returns the store
untouched. -/
theorem C7_lower_timestamp_wins (st : NeroState) (name : ByteStr) (ct : Nat)
    (ml bl : ByteStr) :
    (find_channel st name = none → ∀ r st',
      p10_add_channel st name ct ml bl = some (r, st') →
      ∃ ch, st'.channels = st.channels ++ [ch] ∧ ch.name = name ∧
        ch.created = ct ∧ ch.topic = [] ∧ ch.topicTime = 0) ∧
    (∀ idx ch₀, find_channel st name = some idx → st.channels.get? idx = some ch₀ →
      ct < ch₀.created →
      p10_add_channel st name ct ml bl = some (idx, updChannelAt st idx
        (fun c => { c with created := ct, topicTime := 0, topic := [] }))) ∧
    (∀ idx ch₀, find_channel st name = some idx → st.channels.get? idx = some ch₀ →
      ch₀.created ≤ ct →
      p10_add_channel st name ct ml bl = some (idx, st)) := by
  refine ⟨?_, ?_, ?_⟩
  · intro hnone r st' h
    unfold p10_add_channel at h
    rw [hnone] at h
    cases hm : p10_set_channel_modes (channelNew name ct) ml with
    | none => rw [hm] at h; exact absurd h (by simp)
    | some ch1 =>
      rw [hm] at h
      injection h with h
      injection h with _ h2
      refine ⟨p10_set_channel_bans ch1 bl, by rw [← h2], ?_⟩
      have hc : chCore (p10_set_channel_bans ch1 bl) = chCore (channelNew name ct) :=
        (chCore_bans _ _).trans (chCore_set_modes _ _ _ hm)
      unfold chCore channelNew at hc
      injection hc with e1 hc
      injection hc with e2 hc
      injection hc with e3 hc
      injection hc with e4 _
      exact ⟨e1, e2, e3, e4⟩
  · intro idx ch₀ hfind hch hlt
    unfold p10_add_channel
    simp only [hfind]
    have hca : chanAt st idx = ch₀ := by
      unfold chanAt
      rw [show st.channels.getD idx default = (st.channels.get? idx).getD default
        from rfl, hch]
      rfl
    rw [hca, if_pos hlt]
  · intro idx ch₀ hfind hch hle
    unfold p10_add_channel
    simp only [hfind]
    have hca : chanAt st idx = ch₀ := by
      unfold chanAt
      rw [show st.channels.getD idx default = (st.channels.get? idx).getD default
        from rfl, hch]
      rfl
    rw [hca, if_neg (not_lt.mpr hle)]

/-- Witness for `C7_lower_timestamp_wins`: an older burst (100 against the
stored 200) ages `c7Chan` and wipes its topic. -/
theorem C7_lower_timestamp_wins_witness :
    p10_add_channel c7State (bs "#room") 100 [] [] =
      some (0, updChannelAt c7State 0
        (fun c => { c with created := 100, topicTime := 0, topic := [] })) :=
  (C7_lower_timestamp_wins c7State (bs "#room") 100 [] []).2.1 0 c7Chan
    (by decide) (by decide) (by decide)

/-! ### Frame lemmas for the `B` handler (claim C9) -/

theorem set_own (l : List α) (i : Nat) (d : α) : l.set i (l.getD i d) = l := by
  induction l generalizing i with
  | nil => rfl
  | cons a t ih =>
    cases i with
    | zero => rfl
    | succ n =>
      show a :: t.set n (t.getD n d) = a :: t
      rw [ih]

theorem getD_map_eq (f : α → β) (l : List α) (i : Nat) (d : α) :
    (l.map f).getD i (f d) = f (l.getD i d) := by
  rw [show (l.map f).getD i (f d) = ((l.map f).get? i).getD (f d) from rfl,
      show l.getD i d = (l.get? i).getD d from rfl, List.get?_map]
  cases l.get? i <;> rfl

/-- `updChannelAt` with a function that keeps `chFrame` keeps the whole
store's `chFrame` projection. -/
theorem mapChFrame_updChannelAt (st : NeroState) (i : Nat) (f : ChannelObj → ChannelObj)
    (hf : ∀ ch, chFrame (f ch) = chFrame ch) :
    (updChannelAt st i f).channels.map chFrame = st.channels.map chFrame := by
  unfold updChannelAt
  show (st.channels.set i (f (chanAt st i))).map chFrame = st.channels.map chFrame
  rw [List.map_set, hf]
  unfold chanAt
  rw [← getD_map_eq chFrame st.channels i default, set_own]

theorem mapChFrame_setMemberAt (st : NeroState) (ci mi mm op : Nat) :
    (setMemberAt st ci mi mm op).channels.map chFrame = st.channels.map chFrame := by
  unfold setMemberAt
  apply mapChFrame_updChannelAt
  intro ch
  cases ch.members.get? mi <;> rfl

theorem mapChFrame_add_member (st : NeroState) (ci : Nat) (buf : ByteStr)
    (mi : Nat) (st' : NeroState)
    (h : p10_add_channel_member st ci buf = Except.ok (mi, st')) :
    st'.channels.map chFrame = st.channels.map chFrame := by
  unfold p10_add_channel_member at h
  cases hu : find_user_numeric st buf with
  | none => rw [hu] at h; exact absurd h (by simp)
  | some uid =>
    rw [hu] at h
    dsimp only at h
    split at h <;> injection h with h <;> injection h with _ h2 <;> rw [← h2]
    · rw [mapChFrame_updChannelAt, mapChFrame_updChannelAt]
      · intro ch; rfl
      · intro ch; rfl
    · rw [mapChFrame_updChannelAt]
      intro ch; rfl

theorem mapChFrame_bUserLoop (ulen ci : Nat) (cs : List Nat) (idx mm op : Nat)
    (buf : ByteStr) (colon : Bool) (st : NeroState) :
    (bUserLoopGo ulen ci cs idx mm op buf colon st).channels.map chFrame =
      st.channels.map chFrame := by
  induction cs generalizing idx mm op buf colon st with
  | nil => rfl
  | cons c rest ih =>
    unfold bUserLoopGo
    split
    · dsimp only
      cases hm : p10_add_channel_member st ci
          (if idx + 1 = ulen ∧ ¬ colon then buf ++ [c] else buf) with
      | error e => exact ih ..
      | ok pr =>
        obtain ⟨mi2, st2⟩ := pr
        exact (ih ..).trans ((mapChFrame_setMemberAt ..).trans
          (mapChFrame_add_member _ _ _ _ _ hm))
    · split
      · exact ih ..
      · split
        · exact ih ..
        · exact ih ..

theorem burst_our_channel_fields (st st' : NeroState) (c i : Nat)
    (h : p10_burst_our_channel st c i = some st') :
    st'.channels = st.channels ∧ st'.users = st.users ∧
      st'.servers = st.servers ∧ st'.userHeap = st.userHeap := by
  unfold p10_burst_our_channel at h
  dsimp only at h
  split at h
  · exact absurd h (by simp)
  · injection h with h
    rw [← h]
    exact ⟨rfl, rfl, rfl, rfl⟩

theorem find_channel_congr (st st' : NeroState) (n : ByteStr)
    (h : st'.channels = st.channels) : find_channel st' n = find_channel st n := by
  unfold find_channel
  rw [h]

/-- The existing-channel path of `p10_add_channel` keeps the `chFrame`
projection of the whole store and answers with the found index. -/
theorem add_channel_existing_mapChFrame (st : NeroState) (name : ByteStr)
    (ct : Nat) (ml bl : ByteStr) (idx : Nat) (r : Nat) (st' : NeroState)
    (hfind : find_channel st name = some idx)
    (h : p10_add_channel st name ct ml bl = some (r, st')) :
    st'.channels.map chFrame = st.channels.map chFrame ∧ r = idx := by
  unfold p10_add_channel at h
  simp only [hfind] at h
  split at h <;> injection h with h <;> injection h with h1 h2 <;> rw [← h2]
  · exact ⟨mapChFrame_updChannelAt _ _ _ (fun ch => rfl), h1.symm⟩
  · exact ⟨rfl, h1.symm⟩

/-- Claim C9.  A `B` command whose channel already exists leaves that
channel's mode bitset, key, limit, upass, apass, ban list — and also its
name, topic-setter nick and delayed-join flag — unchanged; only creation
time, topic, topic time and the member list can differ. -/
theorem C9_b_existing_channel_frame (st : NeroState) (argc : Nat)
    (argv : List ByteStr) (idx : Nat) (ch₀ : ChannelObj) (r : Bool)
    (st' : NeroState)
    (hfind : find_channel st (argv.getD 1 []) = some idx)
    (hch : st.channels.get? idx = some ch₀)
    (hrun : p10_cmd_b st argc argv = some (r, st')) :
    ∃ ch₁, st'.channels.get? idx = some ch₁ ∧ ch₁.modes = ch₀.modes ∧
      ch₁.key = ch₀.key ∧ ch₁.limit = ch₀.limit ∧ ch₁.upass = ch₀.upass ∧
      ch₁.apass = ch₀.apass ∧ ch₁.bans = ch₀.bans ∧ ch₁.name = ch₀.name ∧
      ch₁.topicNick = ch₀.topicNick ∧ ch₁.delayedJoin = ch₀.delayedJoin := by
  have hmap : st'.channels.map chFrame = st.channels.map chFrame := by
    unfold p10_cmd_b at hrun
    split at hrun
    · injection hrun with hrun
      injection hrun with _ h2
      rw [← h2]
    · dsimp only at hrun
      split at hrun
      · exact absurd hrun (by simp)
      · rename_i st1 heq
        have hst1 : st1.channels = st.channels := by
          split at heq
          · rw [hfind] at heq
            exact (burst_our_channel_fields st st1 _ _ heq).1
          · injection heq with heq
            rw [← heq]
        have hfind1 : find_channel st1 (argv.getD 1 []) = some idx :=
          (find_channel_congr st st1 _ hst1).trans hfind
        cases hac : p10_add_channel st1 (argv.getD 1 [])
            ((rustParseU64 (argv.getD 2 [])).getD st.now)
            (bScanArgs argv argc argc 3 1 [] [] []).1
            (bScanArgs argv argc argc 3 1 [] [] []).2.1 with
        | none =>
          rw [hac] at hrun
          exact absurd hrun (by simp)
        | some pr =>
          obtain ⟨ci2, st2⟩ := pr
          rw [hac] at hrun
          injection hrun with hrun
          injection hrun with _ h2
          rw [← h2, mapChFrame_bUserLoop,
            (add_channel_existing_mapChFrame st1 _ _ _ _ idx ci2 st2 hfind1 hac).1,
            hst1]
  have hidx : (st'.channels.get? idx).map chFrame = some (chFrame ch₀) := by
    rw [← List.get?_map, hmap, List.get?_map, hch]
    rfl
  obtain ⟨ch₁, hc1, hc2⟩ := Option.map_eq_some'.mp hidx
  refine ⟨ch₁, hc1, ?_⟩
  unfold chFrame at hc2
  injection hc2 with e1 hc2
  injection hc2 with e2 hc2
  injection hc2 with e3 hc2
  injection hc2 with e4 hc2
  injection hc2 with e5 hc2
  injection hc2 with e6 hc2
  injection hc2 with e7 hc2
  injection hc2 with e8 e9
  exact ⟨e2, e4, e3, e8, e9, e5, e1, e6, e7⟩

/-- Witness for `C9_b_existing_channel_frame`: a later-timestamp `B` for
the stored `c9Chan`. -/
theorem C9_b_existing_channel_frame_witness :
    ∃ ch₁, ((c9State.channels.get? 0 = some ch₁) ∧ ch₁.modes = c9Chan.modes ∧
      ch₁.key = c9Chan.key ∧ ch₁.limit = c9Chan.limit ∧ ch₁.upass = c9Chan.upass ∧
      ch₁.apass = c9Chan.apass ∧ ch₁.bans = c9Chan.bans ∧ ch₁.name = c9Chan.name ∧
      ch₁.topicNick = c9Chan.topicNick ∧ ch₁.delayedJoin = c9Chan.delayedJoin) := by
  obtain ⟨ch₁, h1, h⟩ := C9_b_existing_channel_frame c9State 3 c9Argv 0 c9Chan
    true c9State (by decide) (by decide) (by decide)
  exact ⟨ch₁, ⟨h1, h⟩⟩

/-! ### List lemmas for the store-consistency induction (claim C3) -/

theorem findIdxScan_lt_length (p : α → Bool) (l : List α) (i : Nat)
    (h : findIdxScan p l = some i) : i < l.length := by
  induction l generalizing i with
  | nil => exact absurd h (by simp [findIdxScan])
  | cons a t ih =>
    unfold findIdxScan at h
    split at h
    · injection h with h
      rw [← h]
      exact Nat.succ_pos _
    · obtain ⟨j, hj, hji⟩ := Option.map_eq_some'.mp h
      rw [← hji]
      exact Nat.succ_lt_succ (ih j hj)

theorem get?_eq_some_getD (l : List α) (i : Nat) (d : α) (h : i < l.length) :
    l.get? i = some (l.getD i d) := by
  induction l generalizing i with
  | nil => exact absurd h (by simp)
  | cons a t ih =>
    cases i with
    | zero => rfl
    | succ n => exact ih n (Nat.lt_of_succ_lt_succ h)

theorem getD_mem (l : List α) (i : Nat) (d : α) (h : i < l.length) :
    l.getD i d ∈ l := by
  induction l generalizing i with
  | nil => exact absurd h (by simp)
  | cons a t ih =>
    cases i with
    | zero => exact List.mem_cons_self a t
    | succ n => exact List.mem_cons_of_mem a (ih n (Nat.lt_of_succ_lt_succ h))

theorem countP_set_congr (l : List α) (i : Nat) (a b : α) (p : α → Bool)
    (hget : l.get? i = some b) (hp : p a = p b) :
    (l.set i a).countP p = l.countP p := by
  induction l generalizing i with
  | nil => rfl
  | cons c t ih =>
    cases i with
    | zero =>
      injection hget with hget
      rw [hget, List.set_cons_zero, List.countP_cons, List.countP_cons, hp]
    | succ n =>
      rw [List.set_cons_succ, List.countP_cons, List.countP_cons, ih n hget]

theorem countP_set_unique (l : List α) (i : Nat) (a : α) (p : α → Bool)
    (hi : i < l.length) (hall : ∀ x ∈ l, p x = false) (hpa : p a = true) :
    (l.set i a).countP p = 1 := by
  induction l generalizing i with
  | nil => exact absurd hi (by simp)
  | cons c t ih =>
    cases i with
    | zero =>
      rw [List.set_cons_zero, List.countP_cons, hpa]
      have ht : t.countP p = 0 := by
        rw [List.countP_eq_zero]
        intro x hx
        simp [hall x (List.mem_cons_of_mem c hx)]
      rw [ht]
      rfl
    | succ n =>
      rw [List.set_cons_succ, List.countP_cons, hall c (List.mem_cons_self c t),
        ih n (Nat.lt_of_succ_lt_succ hi)
          (fun x hx => hall x (List.mem_cons_of_mem c hx))]
      rfl

theorem contains_false_of_not_mem [BEq α] [LawfulBEq α] (l : List α) (a : α)
    (h : ¬ a ∈ l) : l.contains a = false := by
  cases hc : l.contains a with
  | false => rfl
  | true => exact absurd (List.elem_iff.mp hc) h

theorem contains_true_of_mem [BEq α] [LawfulBEq α] (l : List α) (a : α)
    (h : a ∈ l) : l.contains a = true :=
  List.elem_iff.mpr h

/-! ### Invariant plumbing -/

/-- `InvP` only looks at the global user list, the per-server user lists,
the per-channel member projections and the arena size. -/
theorem InvP_congr (st st' : NeroState) (hu : st'.users = st.users)
    (hs : srvUserLists st' = srvUserLists st)
    (hc : chanUidLists st' = chanUidLists st)
    (hh : st'.userHeap.length = st.userHeap.length)
    (h : InvP st) : InvP st' := by
  unfold InvP
  rw [hu, hs, hc, hh]
  exact h

theorem srvUserLists_updServerAt (st : NeroState) (i : Nat)
    (f : ServerObj → ServerObj) (hf : ∀ sv, (f sv).userIds = sv.userIds) :
    srvUserLists (updServerAt st i f) = srvUserLists st := by
  unfold updServerAt srvUserLists
  show (st.servers.set i (f (heapServer st i))).map (fun sv => sv.userIds) =
    st.servers.map (fun sv => sv.userIds)
  rw [List.map_set, hf]
  unfold heapServer
  rw [← getD_map_eq (fun sv => sv.userIds) st.servers i default, set_own]

theorem chanUidLists_updChannelAt (st : NeroState) (i : Nat)
    (f : ChannelObj → ChannelObj) (hf : ∀ ch, (f ch).members = ch.members) :
    chanUidLists (updChannelAt st i f) = chanUidLists st := by
  unfold updChannelAt chanUidLists
  show (st.channels.set i (f (chanAt st i))).map (fun ch => ch.members.map (fun m => m.uid)) =
    st.channels.map (fun ch => ch.members.map (fun m => m.uid))
  rw [List.map_set, hf]
  unfold chanAt
  rw [← getD_map_eq (fun ch => ch.members.map (fun m => m.uid)) st.channels i default,
    set_own]

/-- Fields of state untouched by buffer, clock, unbursted-list, phase and
uplink-pointer changes keep the invariant. -/
theorem InvP_fields (st st' : NeroState) (hu : st'.users = st.users)
    (hs : st'.servers = st.servers) (hc : st'.channels = st.channels)
    (hh : st'.userHeap = st.userHeap) (h : InvP st) : InvP st' := by
  refine InvP_congr st st' hu ?_ ?_ ?_ h
  · unfold srvUserLists
    rw [hs]
  · unfold chanUidLists
    rw [hc]
  · rw [hh]

theorem invp_updServerAt_userIds (st : NeroState) (i : Nat)
    (f : ServerObj → ServerObj) (hf : ∀ sv, (f sv).userIds = sv.userIds)
    (hinv : InvP st) : InvP (updServerAt st i f) :=
  InvP_congr st (updServerAt st i f) rfl (srvUserLists_updServerAt st i f hf)
    rfl rfl hinv

theorem invp_updChannelAt_members_eq (st : NeroState) (i : Nat)
    (f : ChannelObj → ChannelObj) (hf : ∀ ch, (f ch).members = ch.members)
    (hinv : InvP st) : InvP (updChannelAt st i f) :=
  InvP_congr st (updChannelAt st i f) rfl rfl
    (chanUidLists_updChannelAt st i f hf) rfl hinv

theorem p10_cmd_pass_state (st : NeroState) (a : Nat) (v : List ByteStr) :
    (p10_cmd_pass st a v).1.2 = st := by
  unfold p10_cmd_pass
  split
  · rfl
  · split
    · rfl
    · split <;> rfl

theorem burst_fold_fields (l : List ChannelObj) (s : NeroState) :
    (l.foldl burstChanStep s).users = s.users ∧
    (l.foldl burstChanStep s).servers = s.servers ∧
    (l.foldl burstChanStep s).channels = s.channels ∧
    (l.foldl burstChanStep s).userHeap = s.userHeap := by
  induction l generalizing s with
  | nil => exact ⟨rfl, rfl, rfl, rfl⟩
  | cons c t ih =>
    rw [List.foldl_cons]
    unfold burstChanStep
    dsimp only
    split
    · exact ih s
    · exact ih _

theorem burst_our_users_fields (st : NeroState) :
    (p10_burst_our_users st).users = st.users ∧
    (p10_burst_our_users st).servers = st.servers ∧
    (p10_burst_our_users st).channels = st.channels ∧
    (p10_burst_our_users st).userHeap = st.userHeap := by
  unfold p10_burst_our_users
  exact burst_fold_fields st.channels _

theorem invp_append_server (st : NeroState) (sv : ServerObj)
    (hsv : sv.userIds = []) (hinv : InvP st) :
    InvP { st with servers := st.servers ++ [sv] } := by
  obtain ⟨h1, h2, h3, h4⟩ := hinv
  refine ⟨h1, ?_, h3, ?_⟩
  · intro l hl
    have hl2 : l ∈ srvUserLists st ++ [sv.userIds] := by
      unfold srvUserLists at hl ⊢
      rw [List.map_append] at hl
      exact hl
    rcases List.mem_append.mp hl2 with hl3 | hl3
    · exact h2 l hl3
    · rw [List.mem_singleton.mp hl3, hsv]
      intro u hu
      exact absurd hu (List.not_mem_nil u)
  · intro u hu
    show (srvUserLists { st with servers := st.servers ++ [sv] }).countP
      (fun l => l.contains u) = 1
    have he : srvUserLists { st with servers := st.servers ++ [sv] } =
        srvUserLists st ++ [sv.userIds] := by
      unfold srvUserLists
      rw [List.map_append]
      rfl
    rw [he, List.countP_append]
    have hz : List.countP (fun l => l.contains u) [sv.userIds] = 0 := by
      rw [hsv]
      rfl
    rw [hz, Nat.add_zero]
    exact h4 u hu

theorem invp_cmd_server (st : NeroState) (o : ByteStr) (a : Nat)
    (v : List ByteStr) (r : Bool) (st' : NeroState)
    (h : p10_cmd_server st o a v = some (r, st')) (hinv : InvP st) : InvP st' := by
  unfold p10_cmd_server at h
  split at h
  · injection h with h
    injection h with _ h2
    rw [← h2]
    exact hinv
  · split at h
    · dsimp only at h
      split at h <;> injection h with h <;> injection h with _ h2 <;> rw [← h2]
      · -- first server: uplink set, local-user burst, server appended
        refine invp_append_server _ _ ?_ ?_
        · rfl
        · have hb := burst_our_users_fields { st with uplink := some st.servers.length }
          refine InvP_fields _ _ hb.1 hb.2.1 hb.2.2.1 hb.2.2.2 ?_
          exact InvP_fields st _ rfl rfl rfl rfl hinv
      · refine invp_append_server st _ ?_ hinv
        rfl
    · exact absurd h (by simp)

theorem invp_cmd_eb (st : NeroState) (o : ByteStr) (r : Bool) (st' : NeroState)
    (h : p10_cmd_eb st o = some (r, st')) (hinv : InvP st) : InvP st' := by
  unfold p10_cmd_eb at h
  cases hu : st.uplink with
  | none => rw [hu] at h; exact absurd h (by simp)
  | some up =>
    rw [hu] at h
    dsimp only at h
    cases hs : find_server_numeric st o with
    | none =>
      rw [hs] at h
      injection h with h
      injection h with _ h2
      rw [← h2]
      exact hinv
    | some sid =>
      rw [hs] at h
      injection h with h
      injection h with _ h2
      rw [← h2]
      refine invp_updServerAt_userIds _ sid _ (fun sv => rfl) ?_
      split
      · exact InvP_fields st _ rfl rfl rfl rfl hinv
      · exact hinv

theorem invp_cmd_g (st : NeroState) (o : ByteStr) (a : Nat) (v : List ByteStr)
    (r : Bool) (st' : NeroState) (h : p10_cmd_g st o a v = some (r, st'))
    (hinv : InvP st) : InvP st' := by
  unfold p10_cmd_g at h
  split at h <;> injection h with h <;> injection h with _ h2 <;> rw [← h2]
  · exact InvP_fields st _ rfl rfl rfl rfl hinv
  · exact hinv

theorem invp_cmd_textmessage (st : NeroState) (o : ByteStr) (a : Nat)
    (v : List ByteStr) (pm : Bool) (r : Bool) (st' : NeroState)
    (h : p10_cmd_textmessage st o a v pm = some (r, st')) (hinv : InvP st) :
    InvP st' := by
  unfold p10_cmd_textmessage at h
  split at h
  · injection h with h
    injection h with _ h2
    rw [← h2]
    exact hinv
  · cases hu : find_user_numeric st o with
    | none =>
      rw [hu] at h
      injection h with h
      injection h with _ h2
      rw [← h2]
      exact hinv
    | some uid =>
      rw [hu] at h
      dsimp only at h
      split at h
      · cases ht : find_user_numeric st (v.getD 1 []) with
        | none => rw [ht] at h; exact absurd h (by simp)
        | some t =>
          rw [ht] at h
          injection h with h
          injection h with _ h2
          rw [← h2]
          exact hinv
      · injection h with h
        injection h with _ h2
        rw [← h2]
        exact hinv

theorem invp_set_channel_topic (st : NeroState) (ci : Nat) (ou : Option Nat)
    (topic : ByteStr) (hinv : InvP st) :
    InvP (p10_set_channel_topic st ci ou topic) := by
  unfold p10_set_channel_topic
  cases ou with
  | none =>
    exact invp_updChannelAt_members_eq st ci _ (fun ch => rfl) hinv
  | some uid =>
    dsimp only
    refine invp_updChannelAt_members_eq _ ci _ (fun ch => rfl) ?_
    exact invp_updChannelAt_members_eq st ci _ (fun ch => rfl) hinv

theorem invp_cmd_t (st : NeroState) (o : ByteStr) (a : Nat) (v : List ByteStr)
    (r : Bool) (st' : NeroState) (h : p10_cmd_t st o a v = some (r, st'))
    (hinv : InvP st) : InvP st' := by
  unfold p10_cmd_t at h
  split at h
  · injection h with h
    injection h with _ h2
    rw [← h2]
    exact hinv
  · cases hc : find_channel st (v.getD 1 []) with
    | none =>
      rw [hc] at h
      injection h with h
      injection h with _ h2
      rw [← h2]
      exact hinv
    | some ci =>
      rw [hc] at h
      dsimp only at h
      injection h with h
      injection h with _ h2
      rw [← h2]
      exact invp_updChannelAt_members_eq _ ci _ (fun ch => rfl)
        (invp_set_channel_topic st ci _ _ hinv)

theorem getD_of_le (l : List α) (i : Nat) (d : α) (h : l.length ≤ i) :
    l.getD i d = d := by
  induction l generalizing i with
  | nil => cases i <;> rfl
  | cons a t ih =>
    cases i with
    | zero => exact absurd h (by simp)
    | succ n => exact ih n (Nat.le_of_succ_le_succ h)

theorem srvUserLists_length (st : NeroState) :
    (srvUserLists st).length = st.servers.length := by
  unfold srvUserLists
  rw [List.length_map]

theorem chanUidLists_length (st : NeroState) :
    (chanUidLists st).length = st.channels.length := by
  unfold chanUidLists
  rw [List.length_map]

/-- Rebuild `InvP` from the four store projections. -/
theorem invp_of_projs (st' : NeroState) (users : List Nat)
    (L C : List (List Nat)) (n : Nat)
    (hu : st'.users = users) (hs : srvUserLists st' = L)
    (hc : chanUidLists st' = C) (hh : st'.userHeap.length = n)
    (h1 : ∀ v ∈ users, v < n) (h2 : ∀ l ∈ L, ∀ v ∈ l, v < n)
    (h3 : ∀ l ∈ C, ∀ v ∈ l, v ∈ users)
    (h4 : ∀ v ∈ users, L.countP (fun l => l.contains v) = 1) : InvP st' := by
  unfold InvP
  rw [hu, hs, hc, hh]
  exact ⟨h1, h2, h3, h4⟩

/-- Pure list form of pushing a fresh user index `hl` onto the global list
and onto server `sid`'s list. -/
theorem invp_push_abstract (users : List Nat) (L C : List (List Nat))
    (hl sid : Nat) (hlen : sid < L.length)
    (h1 : ∀ v ∈ users, v < hl) (h2 : ∀ l ∈ L, ∀ v ∈ l, v < hl)
    (h3 : ∀ l ∈ C, ∀ v ∈ l, v ∈ users)
    (h4 : ∀ v ∈ users, L.countP (fun l => l.contains v) = 1) :
    (∀ v ∈ users ++ [hl], v < hl + 1) ∧
    (∀ l ∈ L.set sid (L.getD sid [] ++ [hl]), ∀ v ∈ l, v < hl + 1) ∧
    (∀ l ∈ C, ∀ v ∈ l, v ∈ users ++ [hl]) ∧
    (∀ v ∈ users ++ [hl],
      (L.set sid (L.getD sid [] ++ [hl])).countP (fun l => l.contains v) = 1) := by
  refine ⟨?_, ?_, ?_, ?_⟩
  · intro v hv
    rcases List.mem_append.mp hv with hv | hv
    · exact Nat.lt_succ_of_lt (h1 v hv)
    · rw [List.mem_singleton.mp hv]
      exact Nat.lt_succ_self hl
  · intro l hl2
    rcases List.mem_or_eq_of_mem_set hl2 with hl3 | hl3
    · intro v hv
      exact Nat.lt_succ_of_lt (h2 l hl3 v hv)
    · rw [hl3]
      intro v hv
      rcases List.mem_append.mp hv with hv | hv
      · exact Nat.lt_succ_of_lt (h2 _ (getD_mem L sid [] hlen) v hv)
      · rw [List.mem_singleton.mp hv]
        exact Nat.lt_succ_self hl
  · intro l hl2 v hv
    exact List.mem_append.mpr (Or.inl (h3 l hl2 v hv))
  · intro v hv
    rcases List.mem_append.mp hv with hv | hv
    · have hvne : ¬ v = hl := Nat.ne_of_lt (h1 v hv)
      have hpp : (L.getD sid [] ++ [hl]).contains v = (L.getD sid []).contains v := by
        by_cases hm : v ∈ L.getD sid []
        · rw [contains_true_of_mem _ _ (List.mem_append.mpr (Or.inl hm)),
            contains_true_of_mem _ _ hm]
        · rw [contains_false_of_not_mem _ _ hm, contains_false_of_not_mem]
          intro hmm
          rcases List.mem_append.mp hmm with hc | hc
          · exact hm hc
          · exact hvne (List.mem_singleton.mp hc)
      rw [countP_set_congr L sid (L.getD sid [] ++ [hl]) (L.getD sid [])
        (fun l => l.contains v) (get?_eq_some_getD L sid [] hlen) hpp]
      exact h4 v hv
    · rw [List.mem_singleton.mp hv]
      refine countP_set_unique L sid _ _ hlen ?_ ?_
      · intro x hx
        refine contains_false_of_not_mem x hl ?_
        intro hmem
        exact Nat.lt_irrefl hl (h2 x hx hl hmem)
      · exact contains_true_of_mem _ hl
          (List.mem_append.mpr (Or.inr (List.mem_singleton.mpr rfl)))

/-- The state transform at the end of `p10_add_user`: push the new node
onto the arena, the owning server's list, and the global list. -/
theorem invp_push_user_state (st : NeroState) (sid : Nat) (u : UserObj)
    (hsid : sid < st.servers.length) (hinv : InvP st) :
    InvP { updServerAt { st with userHeap := st.userHeap ++ [u] } sid
        (fun sv => { sv with userIds := sv.userIds ++ [st.userHeap.length] })
      with users := st.users ++ [st.userHeap.length] } := by
  obtain ⟨h1, h2, h3, h4⟩ := hinv
  have hlen : sid < (srvUserLists st).length := by
    rw [srvUserLists_length]
    exact hsid
  obtain ⟨g1, g2, g3, g4⟩ := invp_push_abstract st.users (srvUserLists st)
    (chanUidLists st) st.userHeap.length sid hlen h1 h2 h3 h4
  refine invp_of_projs _ (st.users ++ [st.userHeap.length])
    ((srvUserLists st).set sid ((srvUserLists st).getD sid [] ++ [st.userHeap.length]))
    (chanUidLists st) (st.userHeap.length + 1) rfl ?_ rfl ?_ g1 g2 g3 g4
  · unfold srvUserLists updServerAt heapServer
    dsimp only
    rw [List.map_set]
    dsimp only
    rw [← getD_map_eq (fun sv => sv.userIds) st.servers sid default]
    rfl
  · show (st.userHeap ++ [u]).length = st.userHeap.length + 1
    rw [List.length_append]
    rfl

theorem invp_add_user (st : NeroState) (sid : Nat)
    (nick ident hostname modes numeric gecos timestamp realip : ByteStr)
    (uid : Nat) (st' : NeroState) (hsid : sid < st.servers.length)
    (h : p10_add_user st (some sid) nick ident hostname modes numeric gecos
      timestamp realip = some (Except.ok (uid, st'))) (hinv : InvP st) :
    InvP st' := by
  unfold p10_add_user at h
  cases hb : base64_to_vecu8 realip with
  | none =>
    rw [hb] at h
    exact absurd h (by simp)
  | some ip =>
    rw [hb] at h
    dsimp only at h
    split at h
    · exact absurd h (by simp)
    · split at h
      · exact absurd h (by simp)
      · rename_i u2 heq
        injection h with h
        injection h with h
        injection h with h1 h2
        rw [← h2]
        exact invp_push_user_state st sid u2 hsid hinv

theorem invp_cmd_n (st : NeroState) (o : ByteStr) (a : Nat) (v : List ByteStr)
    (r : Bool) (st' : NeroState) (h : p10_cmd_n st o a v = some (r, st'))
    (hinv : InvP st) : InvP st' := by
  unfold p10_cmd_n at h
  cases hu : find_user_numeric st o with
  | some uid =>
    rw [hu] at h
    dsimp only at h
    split at h <;> injection h with h <;> injection h with _ h2 <;> rw [← h2]
    · exact hinv
    · refine InvP_congr st _ rfl rfl rfl ?_ hinv
      exact List.length_set st.userHeap uid _
  | none =>
    rw [hu] at h
    dsimp only at h
    split at h
    · injection h with h
      injection h with _ h2
      rw [← h2]
      exact hinv
    · split at h
      · exact absurd h (by simp)
      · injection h with h
        injection h with _ h2
        rw [← h2]
        exact hinv
      · rename_i uu st1 heq
        injection h with h
        injection h with _ h2
        rw [← h2]
        cases hs : find_server_numeric st o with
        | none =>
          rw [hs] at heq
          unfold p10_add_user at heq
          cases hb : base64_to_vecu8 (v.getD (a - 3) []) with
          | none =>
            rw [hb] at heq
            exact absurd heq (by simp)
          | some ip =>
            rw [hb] at heq
            dsimp only at heq
            split at heq
            · exact absurd heq (by simp)
            · exact absurd heq (by simp)
        | some sid2 =>
          rw [hs] at heq
          have hsid : sid2 < st.servers.length := by
            unfold find_server_numeric at hs
            exact findIdxScan_lt_length _ _ _ hs
          exact invp_add_user st sid2 _ _ _ _ _ _ _ _ uu st1 hsid heq hinv

/-- Changing one channel's members keeps the invariant as long as every
member uid after the change was already a member uid or sits in the global
list. -/
theorem invp_updChannelAt_members_sub (st : NeroState) (ci : Nat)
    (f : ChannelObj → ChannelObj) (hinv : InvP st)
    (hf : ∀ v ∈ (f (chanAt st ci)).members.map (fun m => m.uid),
      v ∈ (chanAt st ci).members.map (fun m => m.uid) ∨ v ∈ st.users) :
    InvP (updChannelAt st ci f) := by
  obtain ⟨h1, h2, h3, h4⟩ := hinv
  refine ⟨h1, h2, ?_, h4⟩
  intro l hl v hv
  have hl2 : l ∈ (chanUidLists st).set ci
      ((f (chanAt st ci)).members.map (fun m => m.uid)) := by
    unfold chanUidLists updChannelAt at hl
    dsimp only at hl
    rw [List.map_set] at hl
    exact hl
  rcases List.mem_or_eq_of_mem_set hl2 with hl3 | hl3
  · exact h3 l hl3 v hv
  · rw [hl3] at hv
    rcases hf v hv with hv2 | hv2
    · by_cases hci : ci < st.channels.length
      · refine h3 ((chanAt st ci).members.map (fun m => m.uid)) ?_ v hv2
        have he : (chanAt st ci).members.map (fun m => m.uid) =
            (chanUidLists st).getD ci [] := by
          unfold chanAt chanUidLists
          rw [← getD_map_eq (fun ch => ch.members.map (fun m => m.uid))
            st.channels ci default]
          rfl
        rw [he]
        refine getD_mem _ ci [] ?_
        rw [chanUidLists_length]
        exact hci
      · exfalso
        have hd : (chanAt st ci).members.map (fun m => m.uid) = [] := by
          unfold chanAt
          rw [getD_of_le st.channels ci default (Nat.le_of_not_lt hci)]
          rfl
        rw [hd] at hv2
        exact absurd hv2 (List.not_mem_nil v)
    · exact hv2

theorem invp_add_channel_member (st : NeroState) (ci : Nat) (buf : ByteStr)
    (mi : Nat) (st' : NeroState)
    (h : p10_add_channel_member st ci buf = Except.ok (mi, st'))
    (hinv : InvP st) : InvP st' := by
  unfold p10_add_channel_member at h
  cases hu : find_user_numeric st buf with
  | none =>
    rw [hu] at h
    exact absurd h (by simp)
  | some uid =>
    have huid : uid ∈ st.users := by
      unfold find_user_numeric at hu
      exact List.mem_of_find?_eq_some hu
    have hst1 : InvP (updChannelAt st ci (fun ch => { ch with members :=
        ch.members ++ [{ modes := 0, idle := st.now, oplevel := 0, uid := uid }] })) := by
      refine invp_updChannelAt_members_sub st ci _ hinv ?_
      intro v hv
      simp only [List.map_append, List.map_cons, List.map_nil] at hv
      rcases List.mem_append.mp hv with hv | hv
      · exact Or.inl hv
      · right
        rw [List.mem_singleton.mp hv]
        exact huid
    rw [hu] at h
    dsimp only at h
    split at h <;> injection h with h <;> injection h with _ h2 <;> rw [← h2]
    · refine invp_updChannelAt_members_sub _ ci _ hst1 ?_
      intro v hv
      dsimp only at hv
      obtain ⟨mem, hmem, hveq⟩ := List.mem_map.mp hv
      rcases List.mem_or_eq_of_mem_set hmem with hmem | hmem
      · exact Or.inl (List.mem_map.mpr ⟨mem, hmem, hveq⟩)
      · right
        rw [← hveq, hmem]
        exact huid
    · exact hst1

theorem invp_setMemberAt (st : NeroState) (ci mi mm op : Nat) (hinv : InvP st) :
    InvP (setMemberAt st ci mi mm op) := by
  unfold setMemberAt
  refine invp_updChannelAt_members_sub st ci _ hinv ?_
  intro v hv
  cases hg : (chanAt st ci).members.get? mi with
  | none =>
    simp only [hg] at hv
    exact Or.inl hv
  | some m =>
    simp only [hg] at hv
    obtain ⟨mem, hmem, hveq⟩ := List.mem_map.mp hv
    rcases List.mem_or_eq_of_mem_set hmem with hmem | hmem
    · exact Or.inl (List.mem_map.mpr ⟨mem, hmem, hveq⟩)
    · left
      rw [← hveq, hmem]
      exact List.mem_map.mpr ⟨m, List.get?_mem hg, rfl⟩

theorem invp_add_channel (st : NeroState) (name : ByteStr) (ct : Nat)
    (ml bl : ByteStr) (ci : Nat) (st' : NeroState)
    (h : p10_add_channel st name ct ml bl = some (ci, st'))
    (hinv : InvP st) : InvP st' := by
  unfold p10_add_channel at h
  cases hf : find_channel st name with
  | some idx =>
    rw [hf] at h
    dsimp only at h
    split at h <;> injection h with h <;> injection h with _ h2 <;> rw [← h2]
    · exact invp_updChannelAt_members_eq st idx _ (fun c => rfl) hinv
    · exact hinv
  | none =>
    rw [hf] at h
    dsimp only at h
    split at h
    · exact absurd h (by simp)
    · rename_i ch1 heq
      injection h with h
      injection h with _ h2
      rw [← h2]
      have hm1 : ch1.members = [] :=
        congrArg (fun p => p.2.2.2.2) (chCore_set_modes (channelNew name ct) ch1 ml heq)
      have hm2 : (p10_set_channel_bans ch1 bl).members = ch1.members :=
        congrArg (fun p => p.2.2.2.2) (chCore_bans ch1 bl)
      obtain ⟨h1, h2i, h3, h4⟩ := hinv
      refine ⟨h1, h2i, ?_, h4⟩
      intro l hl v hv
      have hl2 : l ∈ chanUidLists st ++
          [(p10_set_channel_bans ch1 bl).members.map (fun m => m.uid)] := by
        unfold chanUidLists at hl
        dsimp only at hl
        rw [List.map_append] at hl
        exact hl
      rcases List.mem_append.mp hl2 with hl3 | hl3
      · exact h3 l hl3 v hv
      · rw [List.mem_singleton.mp hl3, hm2, hm1] at hv
        exact absurd hv (List.not_mem_nil v)

theorem invp_bUserLoopGo (ulen ci : Nat) (cs : List Nat) :
    ∀ (idx mm op : Nat) (buf : ByteStr) (colon : Bool) (st : NeroState),
    InvP st → InvP (bUserLoopGo ulen ci cs idx mm op buf colon st) := by
  induction cs with
  | nil =>
    intro idx mm op buf colon st hinv
    exact hinv
  | cons c rest ih =>
    intro idx mm op buf colon st hinv
    unfold bUserLoopGo
    split
    · dsimp only
      cases hm : p10_add_channel_member st ci
          (if idx + 1 = ulen ∧ ¬ colon then buf ++ [c] else buf) with
      | error e => exact ih _ _ _ _ _ _ hinv
      | ok pr =>
        obtain ⟨mi2, st2⟩ := pr
        exact ih _ _ _ _ _ _
          (invp_setMemberAt st2 ci mi2 _ _
            (invp_add_channel_member st ci _ mi2 st2 hm hinv))
    · split
      · exact ih _ _ _ _ _ _ hinv
      · split
        · exact ih _ _ _ _ _ _ hinv
        · exact ih _ _ _ _ _ _ hinv

theorem invp_cmd_b (st : NeroState) (a : Nat) (v : List ByteStr)
    (r : Bool) (st' : NeroState) (h : p10_cmd_b st a v = some (r, st'))
    (hinv : InvP st) : InvP st' := by
  unfold p10_cmd_b at h
  split at h
  · injection h with h
    injection h with _ h2
    rw [← h2]
    exact hinv
  · dsimp only at h
    split at h
    · exact absurd h (by simp)
    · rename_i st1 heq
      have hinv1 : InvP st1 := by
        split at heq
        · cases hf : find_channel st (v.getD 1 []) with
          | none =>
            rw [hf] at heq
            exact absurd heq (by simp)
          | some ci =>
            simp only [hf] at heq
            have hb := burst_our_channel_fields st st1 _ ci heq
            exact InvP_fields st st1 hb.2.1 hb.2.2.1 hb.1 hb.2.2.2 hinv
        · injection heq with heq
          rw [← heq]
          exact hinv
      split at h
      · exact absurd h (by simp)
      · rename_i ci2 st2 heq2
        injection h with h
        injection h with _ h2
        rw [← h2]
        exact invp_bUserLoopGo _ _ _ _ _ _ _ _ _
          (invp_add_channel st1 _ _ _ _ ci2 st2 heq2 hinv1)

theorem invp_cmd_gl (st : NeroState) (o : ByteStr) (a : Nat)
    (v : List ByteStr) (r : Bool) (st' : NeroState)
    (h : p10_cmd_gl st o a v = some (r, st')) (hinv : InvP st) : InvP st' := by
  unfold p10_cmd_gl at h
  injection h with h
  injection h with _ h2
  rw [← h2]
  exact hinv

theorem invp_cmd_ea (st : NeroState) (o : ByteStr) (r : Bool) (st' : NeroState)
    (h : p10_cmd_ea st o = some (r, st')) (hinv : InvP st) : InvP st' := by
  unfold p10_cmd_ea at h
  injection h with h
  injection h with _ h2
  rw [← h2]
  exact hinv

/-- Every dispatch target except the quit handler preserves the
invariant. -/
theorem dispatch_InvP (st : NeroState) (o c : ByteStr) (a : Nat)
    (v : List ByteStr) (r : Bool) (st' : NeroState) (hq : ¬ c = bs "Q")
    (h : dispatchCmd st o c a v = some (r, st')) (hinv : InvP st) : InvP st' := by
  delta dispatchCmd at h
  by_cases k1 : c = bs "SERVER"
  · rw [if_pos k1] at h
    exact invp_cmd_server st o a v r st' h hinv
  · rw [if_neg k1] at h
    by_cases k2 : c = bs "PASS"
    · rw [if_pos k2] at h
      injection h with h
      have h2 : (p10_cmd_pass st a v).1.2 = st' := congrArg Prod.snd h
      rw [← h2, p10_cmd_pass_state]
      exact hinv
    · rw [if_neg k2] at h
      by_cases k3 : c = bs "S"
      · rw [if_pos k3] at h
        exact invp_cmd_server st o a v r st' h hinv
      · rw [if_neg k3] at h
        by_cases k4 : c = bs "N"
        · rw [if_pos k4] at h
          exact invp_cmd_n st o a v r st' h hinv
        · rw [if_neg k4] at h
          by_cases k5 : c = bs "Q"
          · exact absurd k5 hq
          · rw [if_neg k5] at h
            by_cases k6 : c = bs "B"
            · rw [if_pos k6] at h
              exact invp_cmd_b st a v r st' h hinv
            · rw [if_neg k6] at h
              by_cases k7 : c = bs "T"
              · rw [if_pos k7] at h
                exact invp_cmd_t st o a v r st' h hinv
              · rw [if_neg k7] at h
                by_cases k8 : c = bs "G"
                · rw [if_pos k8] at h
                  exact invp_cmd_g st o a v r st' h hinv
                · rw [if_neg k8] at h
                  by_cases k9 : c = bs "P"
                  · rw [if_pos k9] at h
                    exact invp_cmd_textmessage st o a v true r st' h hinv
                  · rw [if_neg k9] at h
                    by_cases k10 : c = bs "O"
                    · rw [if_pos k10] at h
                      exact invp_cmd_textmessage st o a v false r st' h hinv
                    · rw [if_neg k10] at h
                      by_cases k11 : c = bs "GL"
                      · rw [if_pos k11] at h
                        exact invp_cmd_gl st o a v r st' h hinv
                      · rw [if_neg k11] at h
                        by_cases k12 : c = bs "EB"
                        · rw [if_pos k12] at h
                          exact invp_cmd_eb st o r st' h hinv
                        · rw [if_neg k12] at h
                          by_cases k13 : c = bs "EA"
                          · rw [if_pos k13] at h
                            exact invp_cmd_ea st o r st' h hinv
                          · rw [if_neg k13] at h
                            injection h with h
                            injection h with _ h2
                            rw [← h2]
                            exact hinv

/-- One processed line whose tokens cannot dispatch `Q` preserves the
invariant. -/
theorem process_InvP (nowVal : Nat) (msg : ByteStr) (st0 st' : NeroState)
    (hq : noQTokens msg = true)
    (h : process nowVal msg st0 = some st') (hinv : InvP st0) : InvP st' := by
  unfold noQTokens at hq
  rw [Bool.and_eq_true] at hq
  unfold process at h
  dsimp only at h
  split at h
  · injection h with h
    rw [← h]
    exact InvP_fields st0 _ rfl rfl rfl rfl hinv
  · split at h
    · exact absurd h (by simp)
    · split at h
      · split at h
        · obtain ⟨pr, hd, hpr⟩ := Option.map_eq_some'.mp h
          obtain ⟨r, st1⟩ := pr
          rw [← hpr]
          exact dispatch_InvP _ _ _ _ _ r st1 (of_decide_eq_true hq.2) hd
            (InvP_fields st0 _ rfl rfl rfl rfl hinv)
        · injection h with h
          rw [← h]
          exact InvP_fields st0 _ rfl rfl rfl rfl hinv
      · split at h
        · obtain ⟨pr, hd, hpr⟩ := Option.map_eq_some'.mp h
          obtain ⟨r, st1⟩ := pr
          rw [← hpr]
          exact dispatch_InvP _ _ _ _ _ r st1 (of_decide_eq_true hq.1) hd
            (InvP_fields st0 _ rfl rfl rfl rfl hinv)
        · injection h with h
          rw [← h]
          exact InvP_fields st0 _ rfl rfl rfl rfl hinv

theorem processSeq_InvP (ls : List (Nat × ByteStr)) :
    ∀ (st st' : NeroState), (∀ p ∈ ls, noQTokens p.2 = true) →
    processSeq st ls = some st' → InvP st → InvP st' := by
  induction ls with
  | nil =>
    intro st st' _ h hinv
    injection h with h
    rw [← h]
    exact hinv
  | cons p rest ih =>
    intro st st' hq h hinv
    obtain ⟨nv, line⟩ := p
    unfold processSeq at h
    cases hp : process nv line st with
    | none =>
      rw [hp] at h
      exact absurd h (by simp)
    | some st1 =>
      rw [hp] at h
      exact ih st1 st' (fun q hqm => hq q (List.mem_cons_of_mem _ hqm)) h
        (process_InvP nv line st st1 (hq (nv, line) (List.mem_cons_self _ _)) hp hinv)

theorem InvP_initial (cfg : Config) : InvP (initialState cfg) := by
  refine ⟨?_, ?_, ?_, ?_⟩
  · intro v hv
    exact absurd hv (List.not_mem_nil v)
  · intro l hl
    have h2 : l = [] := List.mem_singleton.mp hl
    rw [h2]
    intro v hv
    exact absurd hv (List.not_mem_nil v)
  · intro l hl
    exact absurd hl (List.not_mem_nil l)
  · intro v hv
    exact absurd hv (List.not_mem_nil v)

theorem C3check_of_InvP (st : NeroState) (h : InvP st) : C3check st = true := by
  obtain ⟨h1, h2, h3, h4⟩ := h
  unfold C3check usersOnOneServer membersInGlobalList
  rw [Bool.and_eq_true]
  constructor
  · simp only [List.all_eq_true, beq_iff_eq]
    intro uid hm
    exact h4 uid hm
  · simp only [List.all_eq_true]
    intro l hl uid hm
    exact contains_true_of_mem _ _ (h3 l hl uid hm)

/-- Claim C3 (amended).  After processing any sequence of wire lines from
the initial state in which no line carries `Q` as its first or second
token (so no line can dispatch the quit handler), every user in the global
list appears in exactly one server's user list and every channel member
refers to a user present in the global list. -/
theorem C3_no_quit_invariant (cfg : Config) (ls : List (Nat × ByteStr))
    (st' : NeroState) (hq : ∀ p ∈ ls, noQTokens p.2 = true)
    (hrun : processSeq (initialState cfg) ls = some st') :
    C3check st' = true :=
  C3check_of_InvP st'
    (processSeq_InvP ls (initialState cfg) st' hq hrun (InvP_initial cfg))

/-- Witness for the amended C3: the concrete handshake, SERVER and N burst
of the C2 fixture (which contains no `Q` line) ends in a state passing the
consistency check. -/
theorem C3_no_quit_invariant_witness :
    (processSeq (initialState cfgZ) c2OkPairs).map C3check = some true := by
  cases hp : processSeq (initialState cfgZ) c2OkPairs with
  | none => exact absurd hp (by decide)
  | some s =>
    show some (C3check s) = some true
    exact congrArg some (C3_no_quit_invariant cfgZ c2OkPairs s (by decide) hp)

end Nero
